import Mathlib

/-!
Verification of the devday session-extraction core.

The TypeScript sources are shallowly embedded here.  JavaScript strings are
modelled as lists of characters (`Str`), JSON values by an inductive `Json`
type with integer numerics, and the runtime collaborators that the parsers
call (date parsing, `JSON.parse`, `Number`, the cost model from `cost.ts`,
`homedir()`, the environment-variable overrides) are gathered in a `JsEnv`
record that the embedded functions thread explicitly.  Stateful streaming
loops become folds over an explicit accumulator record.
-/

set_option maxRecDepth 10000

/-- JavaScript strings are modelled as lists of characters (one entry per
UTF-16 code unit of the source strings; every literal in the repository is
ASCII, where the two notions coincide). -/
abbrev Str := List Char

/-- Convert a Lean string literal to the `Str` model. -/
def s2l (s : String) : Str := s.data

/-- JavaScript `String.prototype.trimEnd`. -/
def jsTrimEnd (s : Str) : Str := (s.reverse.dropWhile Char.isWhitespace).reverse

/-- JavaScript `String.prototype.trimStart`. -/
def jsTrimStart (s : Str) : Str := s.dropWhile Char.isWhitespace

/-- JavaScript `String.prototype.trim`. -/
def jsTrim (s : Str) : Str := jsTrimEnd (jsTrimStart s)

/-- JavaScript `s.slice(0, n)` for `n ≥ 0`. -/
def jsTake (s : Str) (n : Nat) : Str := s.take n

/-- JavaScript `s.slice(-n)` for a non-negative count `n`.  `slice(-0)` is
`slice(0)`, which returns the whole string; for `n > 0` it keeps the last
`min n s.length` characters. -/
def jsSliceLast (s : Str) (n : Nat) : Str := if n = 0 then s else s.drop (s.length - n)

/-- JavaScript `hay.includes(needle)` (contiguous substring test). -/
def strIncludes (hay needle : Str) : Bool :=
  match hay with
  | [] => needle.isEmpty
  | _ :: t => needle.isPrefixOf hay || strIncludes t needle

/-- JavaScript `s.startsWith(p)`. -/
def strStartsWith (s p : Str) : Bool := p.isPrefixOf s

/- ------------------------------------------------------------------ -/
/- src/parsers/digest.ts                                              -/
/- ------------------------------------------------------------------ -/

def DIGEST_TRUNCATION_MARKER : Str := s2l "\n\n[...truncated middle section...]\n\n"

/-- `truncateConversationDigest` from `src/parsers/digest.ts`.  The default
`maxChars` argument (environment override with fallback 8000, resolved by
`resolvePositiveInteger`) is supplied by the caller; here it is an explicit
`Int` argument.  `Math.floor(budget * 0.55)` is modelled as `budget * 55 / 100`
in exact arithmetic, which agrees with the double-precision computation for
every budget below 2^50 (the rounding error is far below the 1/20 gap to the
nearest integer boundary). -/
def truncateConversationDigest (digest : Str) (maxChars : Int) : Str :=
  if maxChars ≤ 0 then digest
  else if (digest.length : Int) ≤ maxChars then digest
  else
    let markerLength := DIGEST_TRUNCATION_MARKER.length
    let budget : Nat := (maxChars - markerLength).toNat
    let headChars := budget * 55 / 100
    let tailChars := budget - headChars
    let head := jsTrimEnd (jsTake digest headChars)
    let tail := jsTrimStart (jsSliceLast digest tailChars)
    head ++ DIGEST_TRUNCATION_MARKER ++ tail

/-- `truncateDigestMessageText` from `src/parsers/digest.ts` (explicit cap). -/
def truncateDigestMessageText (text : Str) (maxChars : Int) : Str :=
  if maxChars ≤ 0 then text
  else if (text.length : Int) ≤ maxChars then text
  else jsTake text maxChars.toNat ++ s2l "..."

/-- `isDigestTruncated` from `src/parsers/digest.ts`. -/
def isDigestTruncated (text : Str) : Bool :=
  strIncludes text DIGEST_TRUNCATION_MARKER

/- ------------------------------------------------------------------ -/
/- JSON value model and runtime collaborators                         -/
/- ------------------------------------------------------------------ -/

/-- JSON values as produced by `JSON.parse` on one log line.  Numbers are
modelled as integers (token counts and the values the claims inspect are
integral). -/
inductive Json where
  | null : Json
  | bool : Bool → Json
  | num : Int → Json
  | str : Str → Json
  | arr : List Json → Json
  | obj : List (Str × Json) → Json

/-- The field list of a JSON object (`Record<string, unknown>`). -/
abbrev Obj := List (Str × Json)

/-- Property lookup in a JSON object (keys produced by `JSON.parse` are
unique, so first match is the object's value). -/
def jLookup : Obj → Str → Option Json
  | [], _ => none
  | (k, v) :: rest, key => if k = key then some v else jLookup rest key

/-- JavaScript property access `j[key]`; `none` models `undefined`. -/
def jGet (j : Json) (key : Str) : Option Json :=
  match j with
  | .obj fields => jLookup fields key
  | _ => none

/-- `asRecord` from the parsers: an object value, and nothing else. -/
def oObj : Option Json → Option Obj
  | some (.obj fields) => some fields
  | _ => none

/-- `stringOrNull(record[key])` on an object. -/
def objGetStr (r : Obj) (key : Str) : Option Str :=
  match jLookup r key with
  | some (.str s) => some s
  | _ => none

/-- `stringOrNull(j[key])` with property access. -/
def jGetStr (j : Json) (key : Str) : Option Str :=
  match jGet j key with
  | some (.str s) => some s
  | _ => none

/-- `stringFromRecord` from the parsers (`null`-tolerant record argument). -/
def stringFromRecord (r : Option Obj) (key : Str) : Option Str :=
  match r with
  | some o => objGetStr o key
  | none => none

/-- JavaScript string truthiness: keep only a non-empty string. -/
def truthyStr : Option Str → Option Str
  | some s => if s.isEmpty then none else some s
  | none => none

/-- JavaScript string falsiness of a nullable string (`!title`). -/
def strFalsy : Option Str → Bool
  | none => true
  | some s => s.isEmpty

/-- `[...new Set(..)]` insertion: append when not yet present. -/
def setAdd (l : List Str) (x : Str) : List Str :=
  if x ∈ l then l else l ++ [x]

/-- Node `path.basename` (POSIX): last path component after dropping
trailing separators. -/
def basename (p : Str) : Str :=
  let trimmed := (p.reverse.dropWhile (· = '/')).reverse
  if trimmed.isEmpty then (if p.isEmpty then [] else ['/'])
  else (trimmed.reverse.takeWhile (fun c => c ≠ '/')).reverse

/-- `TokenUsage` from `types.ts`/`cost.ts` (fields as integers). -/
structure TokenUsage where
  input : Int
  output : Int
  reasoning : Int
  cacheRead : Int
  cacheWrite : Int
  total : Int
deriving DecidableEq

/-- Modelled from the spec: `emptyTokenUsage` from `cost.ts` (the file is not
under `src/`); the spec's all-zero usage, taken as the accumulator seed by
both parsers. -/
def emptyTokenUsage : TokenUsage :=
  { input := 0, output := 0, reasoning := 0, cacheRead := 0, cacheWrite := 0, total := 0 }

/-- The JavaScript runtime collaborators the parsers call, threaded
explicitly: `new Date(s).getTime()` (with `NaN` as `none`), `Number(s)`
(with non-finite results as `none`), `JSON.parse` (with thrown errors as
`none`, and a recursion budget for strings that parse to further strings),
`estimateCost` from `cost.ts` (not under `src/`), `homedir()`, and the
resolved digest-cap environment override. -/
structure JsEnv where
  parseDate : Str → Option Int
  parseNumber : Str → Option Int
  jsonParse : Str → Option Json
  estimateCost : Str → TokenUsage → Rat
  home : Str
  digestMaxChars : Int
  parseFuel : Nat

/-- `parseMaybeJson` from both parsers. -/
def parseMaybeJson (env : JsEnv) (v : Json) : Json :=
  match v with
  | .str s =>
    let trimmed := jsTrim s
    if trimmed.isEmpty then v
    else if strStartsWith trimmed (s2l "\x7b") || strStartsWith trimmed (s2l "[") then
      match env.jsonParse trimmed with
      | some j => j
      | none => v
    else v
  | _ => v

/- ------------------------------------------------------------------ -/
/- shared session machinery                                           -/
/- ------------------------------------------------------------------ -/

def MAX_EVENT_GAP_MS : Int := 5 * 60 * 1000

/-- The capped-gap summation loop both parsers run over the sorted activity
timestamps: add `min(gap, 5 minutes)` for every strictly positive
consecutive gap. -/
def cappedGaps : List Int → Int
  | a :: b :: rest => (if 0 < b - a then min (b - a) MAX_EVENT_GAP_MS else 0) + cappedGaps (b :: rest)
  | _ => 0

/-- `durationMs` as computed by both parsers: sort the collected activity
timestamps ascending (`sort((a, b) => a - b)`), then sum capped gaps. -/
def sessionDurationMs (activity : List Int) : Int :=
  cappedGaps (activity.insertionSort (· ≤ ·))

/-- The normalized `Session` record (fields from `types.ts` as populated by
the two embedded parsers; timestamps in epoch milliseconds). -/
structure Session where
  id : Str
  tool : Str
  projectPath : Option Str
  projectName : Option Str
  title : Option Str
  startedAt : Int
  endedAt : Int
  durationMs : Int
  messageCount : Nat
  userMessageCount : Nat
  assistantMessageCount : Nat
  summary : Option Str
  topics : List Str
  tokens : TokenUsage
  costUsd : Rat
  models : List Str
  filesTouched : List Str
  conversationDigest : Str
  toolCallSummaries : List Str
deriving DecidableEq

/-- `truncateText` (private helper of both parsers, default cap 500). -/
def truncateText (text : Str) (maxLen : Nat) : Str :=
  if text.length ≤ maxLen then text else jsTake text maxLen ++ s2l "..."

theorem length_dropWhile_le (p : Char → Bool) (l : Str) :
    (l.dropWhile p).length ≤ l.length := by
  induction l with
  | nil => simp [List.dropWhile]
  | cons c t ih =>
    by_cases h : p c
    · simp only [List.dropWhile, h]
      exact Nat.le_trans ih (Nat.le_succ _)
    · simp [List.dropWhile, h]

/-- One whitespace-collapse pass: `replace(/\s+/g, ' ')`. -/
def squeezeWs (s : Str) : Str :=
  match s with
  | [] => []
  | c :: rest =>
    if c.isWhitespace then ' ' :: squeezeWs (rest.dropWhile Char.isWhitespace)
    else c :: squeezeWs rest
termination_by s.length
decreasing_by
  · simp only [List.length_cons]
    exact Nat.lt_succ_of_le (length_dropWhile_le _ _)
  · simp [List.length_cons]

/-- `truncatePrompt` (private helper of both parsers). -/
def truncatePrompt (prompt : Str) : Str :=
  let clean := jsTrim (squeezeWs prompt)
  if clean.length ≤ 60 then clean else jsTake clean 57 ++ s2l "..."

/-- `shortenHomePath` (private helper of both parsers). -/
def shortenHomePath (env : JsEnv) (p : Str) : Str :=
  if strStartsWith p env.home then '~' :: p.drop env.home.length else p


/- ------------------------------------------------------------------ -/
/- CodexParser (src/parsers/codex.ts)                                 -/
/- ------------------------------------------------------------------ -/

/-- `looksLikeSystemEnvelope` of `CodexParser`. -/
def codexLooksLikeSystemEnvelope (text : Str) : Bool :=
  strIncludes text (s2l "<environment_context>") || strStartsWith text (s2l "# AGENTS.md")

/-- `extractTimestampMs` of `CodexParser`: payload fallback. -/
def codexPayloadTimestamp (env : JsEnv) (line : Json) : Option Int :=
  match oObj (jGet line (s2l "payload")) with
  | some payload =>
    match objGetStr payload (s2l "timestamp") with
    | some s => env.parseDate s
    | none => none
  | none => none

/-- `extractTimestampMs` of `CodexParser`: top-level `timestamp` string when
it parses, else the payload's `timestamp` string. -/
def codexExtractTimestampMs (env : JsEnv) (line : Json) : Option Int :=
  match jGetStr line (s2l "timestamp") with
  | some s =>
    match env.parseDate s with
    | some ts => some ts
    | none => codexPayloadTimestamp env line
  | none => codexPayloadTimestamp env line

/-- `numberOrZero` of `CodexParser` applied to a possibly-absent value. -/
def numberOrZero : Option Json → Int
  | some (.num n) => n
  | _ => 0

/-- `addTokenUsage` of `CodexParser`: pull the five buckets out of
`payload.info.last_token_usage` (falling back to `payload.last_token_usage`). -/
def codexAddTokenUsage (tokens : TokenUsage) (payload : Obj) : TokenUsage :=
  let info := oObj (jLookup payload (s2l "info"))
  let usageA : Option Obj :=
    match info with
    | some i => oObj (jLookup i (s2l "last_token_usage"))
    | none => none
  let usage : Option Obj :=
    match usageA with
    | some u => some u
    | none => oObj (jLookup payload (s2l "last_token_usage"))
  match usage with
  | none => tokens
  | some u =>
    { tokens with
      input := tokens.input + numberOrZero (jLookup u (s2l "input_tokens"))
      output := tokens.output + numberOrZero (jLookup u (s2l "output_tokens"))
      reasoning := tokens.reasoning + numberOrZero (jLookup u (s2l "reasoning_output_tokens"))
      cacheRead := tokens.cacheRead + numberOrZero (jLookup u (s2l "cached_input_tokens"))
      cacheWrite := tokens.cacheWrite + numberOrZero (jLookup u (s2l "cache_creation_input_tokens")) }

/-- `extractMessageText` of `CodexParser`: collect the `text`/`content`
string parts of an array-valued message content. -/
def codexMessageParts : List Json → List Str
  | [] => []
  | item :: rest =>
    match item with
    | .obj fields =>
      let t := match objGetStr fields (s2l "text") with
        | some s => some s
        | none => objGetStr fields (s2l "content")
      match truthyStr t with
      | some s => s :: codexMessageParts rest
      | none => codexMessageParts rest
    | _ => codexMessageParts rest

/-- `extractMessageText` of `CodexParser`. -/
def codexExtractMessageText (content : Json) : Str :=
  match content with
  | .str s => s
  | .arr items => jsTrim (List.intercalate (s2l "\n") (codexMessageParts items))
  | _ => []

/-- `isPathLikeKey` of `CodexParser`. -/
def codexIsPathLikeKey (key : Str) : Bool :=
  let normalized := key.map Char.toLower
  strIncludes normalized (s2l "path") || normalized = s2l "file" || strIncludes normalized (s2l "file")

/-- `looksLikePath` of `CodexParser`. -/
def codexLooksLikePath (value : Str) : Bool :=
  if value.isEmpty || decide (500 < value.length) || strIncludes value (s2l "\n") then false
  else strIncludes value (s2l "/") || strIncludes value (s2l "\\") ||
    strStartsWith value (s2l "~") || strStartsWith value (s2l ".")

mutual

/-- `collectFilePaths` of `CodexParser` (top-level strings are skipped;
arrays and objects are walked; path-like keyed string fields are added). -/
def codexCollectFilePaths (value : Json) (out : List Str) : List Str :=
  match value with
  | .str _ => out
  | .arr items => codexCfpList items out
  | .obj fields => codexCfpFields fields out
  | _ => out

def codexCfpList (items : List Json) (out : List Str) : List Str :=
  match items with
  | [] => out
  | item :: rest => codexCfpList rest (codexCollectFilePaths item out)

def codexCfpFields (fields : Obj) (out : List Str) : List Str :=
  match fields with
  | [] => out
  | (key, raw) :: rest =>
    let out1 :=
      match raw with
      | .str s => if codexIsPathLikeKey key && codexLooksLikePath s then setAdd out s else out
      | .arr items => codexCfpList items out
      | .obj inner => codexCfpFields inner out
      | _ => out
    codexCfpFields rest out1

end

/-- `summarizeToolCall` of `CodexParser`: returns the summary string (empty
when the JavaScript result would be falsy) together with the updated
`filesTouched` set. -/
def codexSummarizeToolCall (env : JsEnv) (name : Option Str) (rawInput : Json)
    (filesTouched : List Str) : Str × List Str :=
  let toolName := name.getD (s2l "tool")
  let parsedInput := parseMaybeJson env rawInput
  let files := codexCollectFilePaths parsedInput filesTouched
  let input : Option Obj := oObj (some parsedInput)
  let filePath :=
    stringFromRecord input (s2l "filePath") <|> stringFromRecord input (s2l "path") <|>
      stringFromRecord input (s2l "file") <|> stringFromRecord input (s2l "filepath")
  match truthyStr filePath with
  | some fp => (toolName ++ s2l " " ++ shortenHomePath env fp, files)
  | none =>
    match truthyStr (stringFromRecord input (s2l "command")) with
    | some cmd => (s2l "bash: " ++ jsTake cmd 80, files)
    | none =>
      match truthyStr (stringFromRecord input (s2l "pattern")) with
      | some pat => (toolName ++ s2l ": " ++ pat, files)
      | none =>
        match parsedInput with
        | .str s =>
          if (jsTrim s).isEmpty then (toolName, files)
          else (toolName ++ s2l ": " ++ jsTake (jsTrim s) 80, files)
        | _ => (toolName, files)

/-- The mutable accumulator of `CodexParser.parseSessionFile`
(`Infinity`/`-Infinity` sentinels of the day span become `none`). -/
structure CodexAcc where
  sessionId : Str
  projectPath : Option Str
  projectName : Option Str
  title : Option Str
  userMessageCount : Nat
  assistantMessageCount : Nat
  models : List Str
  tokens : TokenUsage
  filesTouched : List Str
  toolCallSummaries : List Str
  digestParts : List Str
  activityTimestamps : List Int
  sawStructuredMessages : Bool
  dayEarliest : Option Int
  dayLatest : Option Int
deriving DecidableEq

def codexInit (fileBase : Str) : CodexAcc :=
  { sessionId := fileBase, projectPath := none, projectName := none, title := none,
    userMessageCount := 0, assistantMessageCount := 0, models := [], tokens := emptyTokenUsage,
    filesTouched := [], toolCallSummaries := [], digestParts := [], activityTimestamps := [],
    sawStructuredMessages := false, dayEarliest := none, dayLatest := none }

/-- The `session_meta` block of `CodexParser.parseSessionFile`, which runs
before the in-day check. -/
def codexApplyMeta (st : CodexAcc) (line : Json) : CodexAcc :=
  if jGetStr line (s2l "type") = some (s2l "session_meta") then
    match oObj (jGet line (s2l "payload")) with
    | some payload =>
      let st1 :=
        match objGetStr payload (s2l "id") with
        | some id => if id.isEmpty then st else { st with sessionId := id }
        | none => st
      match objGetStr payload (s2l "cwd") with
      | some cwd =>
        if cwd.isEmpty then st1
        else { st1 with projectPath := some cwd, projectName := some (basename cwd) }
      | none => st1
    | none => st
  else st

/-- The `dayEarliest`/`dayLatest` update for an in-day record. -/
def codexSpan (st : CodexAcc) (ts : Int) : CodexAcc :=
  { st with
    dayEarliest := some (match st.dayEarliest with | some e => min e ts | none => ts)
    dayLatest := some (match st.dayLatest with | some l => max l ts | none => ts) }

/-- The `event_msg` branch of `CodexParser.parseSessionFile`. -/
def codexEventMsg (st : CodexAcc) (ts : Int) (payload : Obj) : CodexAcc :=
  let eventType := objGetStr payload (s2l "type")
  if eventType = some (s2l "token_count") then
    { st with tokens := codexAddTokenUsage st.tokens payload }
  else if st.sawStructuredMessages = false ∧ eventType = some (s2l "user_message") then
    match truthyStr (objGetStr payload (s2l "message")) with
    | some text =>
      let st1 := { st with
        userMessageCount := st.userMessageCount + 1
        activityTimestamps := st.activityTimestamps ++ [ts]
        digestParts := st.digestParts ++ [s2l "[User]: " ++ truncateText text 500] }
      if strFalsy st1.title ∧ codexLooksLikeSystemEnvelope text = false then
        { st1 with title := some (truncatePrompt text) }
      else st1
    | none => st
  else if st.sawStructuredMessages = false ∧
      (eventType = some (s2l "agent_message") ∨ eventType = some (s2l "assistant_message")) then
    match truthyStr (objGetStr payload (s2l "message") <|> objGetStr payload (s2l "text")) with
    | some text =>
      { st with
        assistantMessageCount := st.assistantMessageCount + 1
        activityTimestamps := st.activityTimestamps ++ [ts]
        digestParts := st.digestParts ++ [s2l "[Assistant]: " ++ truncateText text 500] }
    | none => st
  else st

/-- The `response_item` branch of `CodexParser.parseSessionFile`. -/
def codexResponseItem (env : JsEnv) (st : CodexAcc) (ts : Int) (payload : Obj) : CodexAcc :=
  let itemType := objGetStr payload (s2l "type")
  if itemType = some (s2l "message") then
    let st1 := { st with sawStructuredMessages := true }
    let role := objGetStr payload (s2l "role")
    let text := codexExtractMessageText ((jLookup payload (s2l "content")).getD .null)
    match truthyStr role with
    | none => st1
    | some r =>
      if text.isEmpty then st1
      else
        let st2 := { st1 with activityTimestamps := st1.activityTimestamps ++ [ts] }
        if r = s2l "user" then
          let st3 := { st2 with
            userMessageCount := st2.userMessageCount + 1
            digestParts := st2.digestParts ++ [s2l "[User]: " ++ truncateText text 500] }
          if strFalsy st3.title ∧ codexLooksLikeSystemEnvelope text = false then
            { st3 with title := some (truncatePrompt text) }
          else st3
        else if r = s2l "assistant" then
          { st2 with
            assistantMessageCount := st2.assistantMessageCount + 1
            digestParts := st2.digestParts ++ [s2l "[Assistant]: " ++ truncateText text 500] }
        else st2
  else if itemType = some (s2l "function_call") then
    let pr := codexSummarizeToolCall env (objGetStr payload (s2l "name"))
      ((jLookup payload (s2l "arguments")).getD .null) st.filesTouched
    if pr.1.isEmpty then { st with filesTouched := pr.2 }
    else { st with
      filesTouched := pr.2
      toolCallSummaries := st.toolCallSummaries ++ [pr.1]
      activityTimestamps := st.activityTimestamps ++ [ts] }
  else if itemType = some (s2l "custom_tool_call") then
    let pr := codexSummarizeToolCall env (objGetStr payload (s2l "name"))
      ((jLookup payload (s2l "input")).getD .null) st.filesTouched
    if pr.1.isEmpty then { st with filesTouched := pr.2 }
    else { st with
      filesTouched := pr.2
      toolCallSummaries := st.toolCallSummaries ++ [pr.1]
      activityTimestamps := st.activityTimestamps ++ [ts] }
  else st

/-- The record-type dispatch of `CodexParser.parseSessionFile` for an
in-day record (runs after the session-metadata block and the span update). -/
def codexDispatch (env : JsEnv) (st2 : CodexAcc) (ts : Int) (line : Json) : CodexAcc :=
  match jGetStr line (s2l "type") with
  | some t =>
    if t = s2l "turn_context" then
      match oObj (jGet line (s2l "payload")) with
      | some payload =>
        match truthyStr (objGetStr payload (s2l "model")) with
        | some m => { st2 with models := setAdd st2.models m }
        | none => st2
      | none => st2
    else if t = s2l "event_msg" then
      match oObj (jGet line (s2l "payload")) with
      | some payload => codexEventMsg st2 ts payload
      | none => st2
    else if t = s2l "response_item" then
      match oObj (jGet line (s2l "payload")) with
      | some payload => codexResponseItem env st2 ts payload
      | none => st2
    else st2
  | none => st2

/-- One iteration of the line loop of `CodexParser.parseSessionFile`. -/
def codexStep (env : JsEnv) (dayStartMs dayEndMs : Int) (st : CodexAcc) (line : Json) : CodexAcc :=
  let st1 := codexApplyMeta st line
  match codexExtractTimestampMs env line with
  | none => st1
  | some ts =>
    if dayStartMs ≤ ts ∧ ts ≤ dayEndMs then codexDispatch env (codexSpan st1 ts) ts line
    else st1

/-- The streamed accumulator over the parsed, non-blank lines of one
`.jsonl` unit (unparsable lines are skipped by the `try`/`catch` and are
not in the list). -/
def codexRun (env : JsEnv) (dayStartMs dayEndMs : Int) (fileBase : Str)
    (lines : List Json) : CodexAcc :=
  lines.foldl (codexStep env dayStartMs dayEndMs) (codexInit fileBase)

/-- The final `Session` assembly of `CodexParser.parseSessionFile`, for an
observed day span `[dayEarliest, dayLatest]`. -/
def codexAssemble (env : JsEnv) (dayStartMs dayEndMs : Int) (st : CodexAcc)
    (dayEarliest dayLatest : Int) : Session :=
  let tokens := { st.tokens with
    total := st.tokens.input + st.tokens.output + st.tokens.reasoning +
      st.tokens.cacheRead + st.tokens.cacheWrite }
  let costUsd : Rat :=
    if 0 < tokens.total ∧ st.models ≠ [] then env.estimateCost (st.models.headD []) tokens else 0
  { id := st.sessionId
    tool := s2l "codex"
    projectPath := st.projectPath
    projectName := st.projectName
    title := st.title
    startedAt := max dayStartMs dayEarliest
    endedAt := min dayEndMs dayLatest
    durationMs := sessionDurationMs st.activityTimestamps
    messageCount := st.userMessageCount + st.assistantMessageCount
    userMessageCount := st.userMessageCount
    assistantMessageCount := st.assistantMessageCount
    summary := none
    topics := match st.title with | some t => [t] | none => []
    tokens := tokens
    costUsd := costUsd
    models := st.models
    filesTouched := st.filesTouched
    conversationDigest := truncateConversationDigest
      (List.intercalate (s2l "\n\n") st.digestParts) env.digestMaxChars
    toolCallSummaries := st.toolCallSummaries.foldl setAdd [] }

/-- `CodexParser.parseSessionFile`: the whole per-unit extraction
(`fileBase` is `basename(filePath, '.jsonl')`); a unit whose day span
sentinels were never moved yields nothing. -/
def parseCodexSessionFile (env : JsEnv) (dayStartMs dayEndMs : Int) (fileBase : Str)
    (lines : List Json) : Option Session :=
  let st := codexRun env dayStartMs dayEndMs fileBase lines
  match st.dayEarliest, st.dayLatest with
  | some dayEarliest, some dayLatest =>
    some (codexAssemble env dayStartMs dayEndMs st dayEarliest dayLatest)
  | _, _ => none

/- ------------------------------------------------------------------ -/
/- CopilotParser (the session-state parser source file)               -/
/- ------------------------------------------------------------------ -/

/-- The result of `parseWorkspaceMetadata` on the optional sidecar
`workspace.yaml` (the file read and line scan are the I/O boundary; a
missing or unreadable file gives three `none` fields). -/
structure WorkspaceMetadata where
  cwd : Option Str
  gitRoot : Option Str
  summary : Option Str
deriving DecidableEq

/-- `looksLikeSystemEnvelope` of `CopilotParser`. -/
def copilotLooksLikeSystemEnvelope (text : Str) : Bool :=
  strIncludes text (s2l "<environment_context>") || strStartsWith text (s2l "# AGENTS.md") ||
    strIncludes text (s2l "<agent_instructions>")

/-- `extractTimestampMs` of `CopilotParser`: the `data` fallback fields. -/
def copilotDataTimestamp (env : JsEnv) (event : Json) : Option Int :=
  match oObj (jGet event (s2l "data")) with
  | none => none
  | some data =>
    match objGetStr data (s2l "timestamp") <|> objGetStr data (s2l "startTime") with
    | some s =>
      match s with
      | [] => none
      | _ => env.parseDate s
    | none => none

/-- `extractTimestampMs` of `CopilotParser`: top-level `timestamp` string
when it parses, else `data.timestamp` / `data.startTime`. -/
def copilotExtractTimestampMs (env : JsEnv) (event : Json) : Option Int :=
  match jGetStr event (s2l "timestamp") with
  | some s =>
    match env.parseDate s with
    | some ts => some ts
    | none => copilotDataTimestamp env event
  | none => copilotDataTimestamp env event

/-- `numberOrNull` of `CopilotParser`: a finite number, or a non-blank
numeric string via `Number(...)`. -/
def numberOrNull (env : JsEnv) : Option Json → Option Int
  | some (.num n) => some n
  | some (.str s) => if (jsTrim s).isEmpty then none else env.parseNumber s
  | _ => none

/-- `firstNumber` of `CopilotParser`: first alias key with a numeric value. -/
def firstNumber (env : JsEnv) (record : Obj) : List Str → Option Int
  | [] => none
  | key :: rest =>
    match numberOrNull env (jLookup record key) with
    | some n => some n
    | none => firstNumber env record rest

/-- `applyUsageFromRecord` of `CopilotParser`: probe the five bucket alias
lists on one object; when at least one bucket matched, add the matches
(unmatched buckets add 0) and report `true`. -/
def applyUsageFromRecord (env : JsEnv) (record : Obj) (tokens : TokenUsage) :
    Bool × TokenUsage :=
  let input := firstNumber env record
    [s2l "input_tokens", s2l "prompt_tokens", s2l "inputTokens", s2l "promptTokens",
      s2l "inputTokenCount", s2l "promptTokenCount"]
  let output := firstNumber env record
    [s2l "output_tokens", s2l "completion_tokens", s2l "outputTokens", s2l "completionTokens",
      s2l "outputTokenCount", s2l "completionTokenCount"]
  let reasoning := firstNumber env record
    [s2l "reasoning_tokens", s2l "reasoning_output_tokens", s2l "reasoningTokens",
      s2l "reasoningTokenCount"]
  let cacheRead := firstNumber env record
    [s2l "cached_input_tokens", s2l "cached_tokens", s2l "cache_read_tokens",
      s2l "cacheReadTokens", s2l "cachedInputTokens"]
  let cacheWrite := firstNumber env record
    [s2l "cache_creation_input_tokens", s2l "cache_creation_tokens", s2l "cache_write_tokens",
      s2l "cacheWriteTokens", s2l "cacheCreationInputTokens"]
  if input = none ∧ output = none ∧ reasoning = none ∧ cacheRead = none ∧ cacheWrite = none then
    (false, tokens)
  else
    (true,
      { tokens with
        input := tokens.input + input.getD 0
        output := tokens.output + output.getD 0
        reasoning := tokens.reasoning + reasoning.getD 0
        cacheRead := tokens.cacheRead + cacheRead.getD 0
        cacheWrite := tokens.cacheWrite + cacheWrite.getD 0 })

/-- `visitUsageRecord` of `CopilotParser`.  The source tracks a growing
`depth` and returns the tokens unchanged past depth 3; it is embedded with
the remaining allowance `4 - depth` so the recursion is structural
(`visitUsageRecord(value, tokens, depth)` is `visitUsage (4 - depth) value
tokens`): stop when no allowance is left, probe the current object, and
when no bucket matched there recurse into the nested container keys in
order (an absent key would be returned unchanged by the callee). -/
def visitUsage (env : JsEnv) : Nat → Json → TokenUsage → TokenUsage
  | 0, _, tokens => tokens
  | remaining + 1, value, tokens =>
    match oObj (some value) with
    | none => tokens
    | some record =>
      match applyUsageFromRecord env record tokens with
      | (true, tokens1) => tokens1
      | (false, _) =>
        [s2l "usage", s2l "tokenUsage", s2l "tokens", s2l "metrics", s2l "result"].foldl
          (fun tk key =>
            match jLookup record key with
            | some v => visitUsage env remaining v tk
            | none => tk) tokens

/-- `visitUsageRecord(value, tokens, 0)`, the entry call the parser makes. -/
def visitUsageRecord (env : JsEnv) (value : Json) (tokens : TokenUsage) : TokenUsage :=
  visitUsage env 4 value tokens

/-- Lowercase a JavaScript string (`toLowerCase`, ASCII range). -/
def lowerStr (s : Str) : Str := s.map Char.toLower

/-- The `/Model changed to:\s*([^\s(]+)/i` search of
`CopilotParser.collectModels`: at each position, match the literal
case-insensitively, skip whitespace, and capture a non-empty run of
characters that are neither whitespace nor an opening parenthesis;
otherwise advance one position. -/
def matchModelChanged : Str → Option Str
  | [] => none
  | c :: rest =>
    if strStartsWith (lowerStr (c :: rest)) (s2l "model changed to:") then
      let after := (c :: rest).drop (s2l "model changed to:").length
      let after2 := after.dropWhile Char.isWhitespace
      let captured := after2.takeWhile (fun ch => ¬ ch.isWhitespace ∧ ch ≠ '(')
      if captured.isEmpty then matchModelChanged rest else some captured
    else matchModelChanged rest

/-- Add a truthy (non-empty) string model name to the set. -/
def addTruthyModel (models : List Str) (v : Option Str) : List Str :=
  match truthyStr v with
  | some s => setAdd models s
  | none => models

/-- The `data.models` array walk of `CopilotParser.collectModels`. -/
def copilotAddModelList : List Str → List Json → List Str
  | models, [] => models
  | models, item :: rest =>
    match item with
    | .str s => copilotAddModelList (if s.isEmpty then models else setAdd models s) rest
    | _ => copilotAddModelList models rest

/-- `collectModels` of `CopilotParser` (it is called on every parsed event,
before the in-day check). -/
def copilotCollectModels (eventType : Str) (data? : Option Obj) (models0 : List Str) :
    List Str :=
  match data? with
  | none => models0
  | some data =>
    let m1 := addTruthyModel models0 (objGetStr data (s2l "model"))
    let m2 := addTruthyModel m1 (objGetStr data (s2l "modelId"))
    let m3 := addTruthyModel m2 (objGetStr data (s2l "modelName"))
    let m4 := addTruthyModel m3 (objGetStr data (s2l "newModel"))
    let m5 :=
      match jLookup data (s2l "models") with
      | some (.arr items) => copilotAddModelList m4 items
      | _ => m4
    let m6 := addTruthyModel m5 (stringFromRecord (oObj (jLookup data (s2l "context"))) (s2l "model"))
    if eventType = s2l "session.info" then
      if objGetStr data (s2l "infoType") = some (s2l "model") then
        match truthyStr (objGetStr data (s2l "message")) with
        | some msg =>
          match matchModelChanged msg with
          | some m => setAdd m6 m
          | none => m6
        | none => m6
      else m6
    else m6

/-- `isPathLikeKey` of `CopilotParser`. -/
def copilotIsPathLikeKey (key : Str) : Bool :=
  let n := lowerStr key
  strIncludes n (s2l "path") || strIncludes n (s2l "file") ||
    n = s2l "cwd" || n = s2l "gitroot" || n = s2l "git_root"

/-- `looksLikePath` of `CopilotParser`. -/
def copilotLooksLikePath (value : Str) : Bool :=
  if value.isEmpty || decide (500 < value.length) || strIncludes value (s2l "\n") then false
  else
    let lower := lowerStr value
    if strStartsWith lower (s2l "http://") || strStartsWith lower (s2l "https://") then false
    else strIncludes value (s2l "/") || strIncludes value (s2l "\\") ||
      strStartsWith value (s2l "~") || strStartsWith value (s2l "./") ||
      strStartsWith value (s2l "../")

mutual

/-- `collectFilePaths` of `CopilotParser`.  String-valued fields that parse
as JSON are re-walked (the parse of a brace- or bracket-leading text is an
object or array, so a changed value is recognized by its shape); the `fuel`
budget bounds that re-walk, mirroring that `JSON.parse` output is strictly
smaller than its input text. -/
def copilotCollectFilePaths (env : JsEnv) (fuel : Nat) (value : Json) (out : List Str) :
    List Str :=
  match value with
  | .str _ => out
  | .arr items => copilotCfpList env fuel items out
  | .obj fields => copilotCfpFields env fuel fields out
  | _ => out
termination_by (fuel, sizeOf value)

def copilotCfpList (env : JsEnv) (fuel : Nat) (items : List Json) (out : List Str) :
    List Str :=
  match items with
  | [] => out
  | item :: rest => copilotCfpList env fuel rest (copilotCollectFilePaths env fuel item out)
termination_by (fuel, sizeOf items)

def copilotCfpFields (env : JsEnv) (fuel : Nat) (fields : Obj) (out : List Str) : List Str :=
  match fields with
  | [] => out
  | (key, raw) :: rest =>
    let out1 :=
      match raw with
      | .str s =>
        match parseMaybeJson env (.str s) with
        | .str _ =>
          if copilotIsPathLikeKey key && copilotLooksLikePath s then setAdd out s else out
        | parsed =>
          match fuel with
          | 0 => out
          | fuel1 + 1 => copilotCollectFilePaths env fuel1 parsed out
      | .arr items => copilotCfpList env fuel items out
      | .obj inner => copilotCfpFields env fuel inner out
      | _ => out
    copilotCfpFields env fuel rest out1
termination_by (fuel, sizeOf fields)

end

/-- `summarizeToolCall` of `CopilotParser` (adds a `cmd` alias for the
command fallback); returns the summary together with the updated
`filesTouched`. -/
def copilotSummarizeToolCall (env : JsEnv) (name : Option Str) (rawInput : Json)
    (filesTouched : List Str) : Str × List Str :=
  let toolName := name.getD (s2l "tool")
  let parsedInput := parseMaybeJson env rawInput
  let files := copilotCollectFilePaths env env.parseFuel parsedInput filesTouched
  let input : Option Obj := oObj (some parsedInput)
  let filePath :=
    stringFromRecord input (s2l "filePath") <|> stringFromRecord input (s2l "path") <|>
      stringFromRecord input (s2l "file") <|> stringFromRecord input (s2l "filepath")
  match truthyStr filePath with
  | some fp => (toolName ++ s2l " " ++ shortenHomePath env fp, files)
  | none =>
    match truthyStr (stringFromRecord input (s2l "command") <|> stringFromRecord input (s2l "cmd")) with
    | some cmd => (s2l "bash: " ++ jsTake cmd 80, files)
    | none =>
      match truthyStr (stringFromRecord input (s2l "pattern")) with
      | some pat => (toolName ++ s2l ": " ++ pat, files)
      | none =>
        match parsedInput with
        | .str s =>
          if (jsTrim s).isEmpty then (toolName, files)
          else (toolName ++ s2l ": " ++ jsTake (jsTrim s) 80, files)
        | _ => (toolName, files)

/-- The content-array walk of `CopilotParser.extractMessageText`. -/
def copilotMsgParts : List Json → List Str
  | [] => []
  | part :: rest =>
    match part with
    | .str s => if (jsTrim s).isEmpty then copilotMsgParts rest else s :: copilotMsgParts rest
    | .obj fields =>
      match truthyStr (objGetStr fields (s2l "text") <|> objGetStr fields (s2l "content") <|>
          objGetStr fields (s2l "value")) with
      | some t => t :: copilotMsgParts rest
      | none => copilotMsgParts rest
    | _ => copilotMsgParts rest

/-- `extractMessageText` of `CopilotParser`. -/
def copilotExtractMessageText (data : Option Obj) : Option Str :=
  match data with
  | none => none
  | some d =>
    match jLookup d (s2l "content") with
    | some (.str s) =>
      let t := jsTrim s
      if t.isEmpty then none else some t
    | some (.arr parts) =>
      let combined := jsTrim (List.intercalate (s2l "\n") (copilotMsgParts parts))
      if combined.isEmpty then none else some combined
    | some (.obj fields) =>
      match truthyStr (objGetStr fields (s2l "text") <|> objGetStr fields (s2l "content") <|>
          objGetStr fields (s2l "value")) with
      | some text =>
        let clean := jsTrim text
        if clean.isEmpty then none else some clean
      | none => none
    | _ => none

/-- JavaScript `a ?? b` over possibly-absent JSON values (`undefined` and
`null` are both nullish); the result feeds an `unknown`-typed parameter, so
a nullish final result is the `null` value. -/
def jNullish : Option Json → Bool
  | none => true
  | some .null => true
  | _ => false

def jCoalesce (a b : Option Json) : Json :=
  if jNullish a then
    match b with
    | some v => v
    | none => .null
  else a.getD .null

/-- The mutable accumulator of `CopilotParser.parseSessionFile`. -/
structure CopilotAcc where
  sessionId : Str
  projectPath : Option Str
  projectName : Option Str
  title : Option Str
  userMessageCount : Nat
  assistantMessageCount : Nat
  models : List Str
  tokens : TokenUsage
  filesTouched : List Str
  toolCallSummaries : List Str
  digestParts : List Str
  activityTimestamps : List Int
  dayEarliest : Option Int
  dayLatest : Option Int
deriving DecidableEq

/-- The local initialization of `CopilotParser.parseSessionFile` from the
unit's directory name and the parsed sidecar metadata. -/
def copilotInit (sessionId : Str) (workspace : WorkspaceMetadata) : CopilotAcc :=
  let projectPath :=
    match workspace.cwd with
    | some c => some c
    | none => workspace.gitRoot
  { sessionId := sessionId
    projectPath := projectPath
    projectName :=
      match truthyStr projectPath with
      | some p => some (basename p)
      | none => none
    title := workspace.summary
    userMessageCount := 0, assistantMessageCount := 0, models := [],
    tokens := emptyTokenUsage, filesTouched := [], toolCallSummaries := [],
    digestParts := [], activityTimestamps := [], dayEarliest := none, dayLatest := none }

/-- The `session.start` block of `CopilotParser.parseSessionFile`, which
runs before the in-day check. -/
def copilotApplyMeta (st : CopilotAcc) (event : Json) : CopilotAcc :=
  if jGetStr event (s2l "type") = some (s2l "session.start") then
    match oObj (jGet event (s2l "data")) with
    | some data =>
      let st1 :=
        match truthyStr (objGetStr data (s2l "sessionId")) with
        | some sid => { st with sessionId := sid }
        | none => st
      let context := oObj (jLookup data (s2l "context"))
      let cwd := stringFromRecord context (s2l "cwd") <|> objGetStr data (s2l "cwd")
      let gitRoot :=
        stringFromRecord context (s2l "gitRoot") <|> stringFromRecord context (s2l "git_root") <|>
          objGetStr data (s2l "gitRoot") <|> objGetStr data (s2l "git_root")
      let st2 :=
        if truthyStr cwd ≠ none ∨ truthyStr gitRoot ≠ none then
          let pp :=
            match cwd with
            | some c => some c
            | none => gitRoot
          { st1 with
            projectPath := pp
            projectName :=
              match truthyStr pp with
              | some p => some (basename p)
              | none => none }
        else st1
      if strFalsy st2.title then
        match truthyStr (objGetStr data (s2l "summary")) with
        | some summary => { st2 with title := some summary }
        | none => st2
      else st2
    | none => st
  else st

/-- The `dayEarliest`/`dayLatest` update for an in-day Copilot record. -/
def copilotSpan (st : CopilotAcc) (ts : Int) : CopilotAcc :=
  { st with
    dayEarliest := some (match st.dayEarliest with | some e => min e ts | none => ts)
    dayLatest := some (match st.dayLatest with | some l => max l ts | none => ts) }

/-- The `toolRequests` loop of the `assistant.message` branch. -/
def copilotToolRequests (env : JsEnv) (st : CopilotAcc) (requests : List Json) : CopilotAcc :=
  match requests with
  | [] => st
  | request :: rest =>
    match request with
    | .obj req =>
      let pr := copilotSummarizeToolCall env (objGetStr req (s2l "name"))
        ((jLookup req (s2l "arguments")).getD .null) st.filesTouched
      let st1 :=
        if pr.1.isEmpty then { st with filesTouched := pr.2 }
        else { st with filesTouched := pr.2, toolCallSummaries := st.toolCallSummaries ++ [pr.1] }
      copilotToolRequests env st1 rest
    | _ => copilotToolRequests env st rest

/-- The per-event-type dispatch of `CopilotParser.parseSessionFile` for an
in-day record (runs after the span and token-usage updates). -/
def copilotDispatch (env : JsEnv) (st : CopilotAcc) (ts : Int) (event : Json)
    (data : Option Obj) : CopilotAcc :=
  let etype := jGetStr event (s2l "type")
  if etype = some (s2l "user.message") then
    let st1 := { st with
      userMessageCount := st.userMessageCount + 1
      activityTimestamps := st.activityTimestamps ++ [ts] }
    match copilotExtractMessageText data with
    | some text =>
      let st2 := { st1 with digestParts := st1.digestParts ++ [s2l "[User]: " ++ truncateText text 500] }
      if strFalsy st2.title ∧ copilotLooksLikeSystemEnvelope text = false then
        { st2 with title := some (truncatePrompt text) }
      else st2
    | none => st1
  else if etype = some (s2l "assistant.message") then
    let st1 := { st with
      assistantMessageCount := st.assistantMessageCount + 1
      activityTimestamps := st.activityTimestamps ++ [ts] }
    let st2 :=
      match copilotExtractMessageText data with
      | some text =>
        { st1 with digestParts := st1.digestParts ++ [s2l "[Assistant]: " ++ truncateText text 500] }
      | none => st1
    match data with
    | some d =>
      match jLookup d (s2l "toolRequests") with
      | some (.arr requests) => copilotToolRequests env st2 requests
      | _ => st2
    | none => st2
  else if etype = some (s2l "assistant.turn_start") ∨ etype = some (s2l "assistant.turn_end") then
    { st with activityTimestamps := st.activityTimestamps ++ [ts] }
  else if etype = some (s2l "tool.execution_start") ∨ etype = some (s2l "tool.execution_complete") then
    let st1 := { st with activityTimestamps := st.activityTimestamps ++ [ts] }
    match data with
    | some d =>
      let pr := copilotSummarizeToolCall env
        (objGetStr d (s2l "toolName") <|> objGetStr d (s2l "name"))
        (jCoalesce (jLookup d (s2l "arguments")) (jLookup d (s2l "result")))
        st1.filesTouched
      let st2 :=
        if pr.1.isEmpty then { st1 with filesTouched := pr.2 }
        else { st1 with filesTouched := pr.2, toolCallSummaries := st1.toolCallSummaries ++ [pr.1] }
      { st2 with
        filesTouched := copilotCollectFilePaths env env.parseFuel
          (parseMaybeJson env ((jLookup d (s2l "result")).getD .null)) st2.filesTouched }
    | none => st1
  else st

/-- One iteration of the event loop of `CopilotParser.parseSessionFile`. -/
def copilotStep (env : JsEnv) (dayStartMs dayEndMs : Int) (st : CopilotAcc) (event : Json) :
    CopilotAcc :=
  let data := oObj (jGet event (s2l "data"))
  let st1 := copilotApplyMeta st event
  let st2 := { st1 with
    models := copilotCollectModels ((jGetStr event (s2l "type")).getD []) data st1.models }
  match copilotExtractTimestampMs env event with
  | none => st2
  | some ts =>
    if dayStartMs ≤ ts ∧ ts ≤ dayEndMs then
      let st3 := copilotSpan st2 ts
      let st4 :=
        match data with
        | some d => { st3 with tokens := visitUsageRecord env (.obj d) st3.tokens }
        | none => st3
      copilotDispatch env st4 ts event data
    else st2

/-- The streamed accumulator over the parsed, non-blank events of one
Copilot unit. -/
def copilotRun (env : JsEnv) (dayStartMs dayEndMs : Int) (sessionId : Str)
    (workspace : WorkspaceMetadata) (events : List Json) : CopilotAcc :=
  events.foldl (copilotStep env dayStartMs dayEndMs) (copilotInit sessionId workspace)

/-- The final `Session` assembly of `CopilotParser.parseSessionFile`. -/
def copilotAssemble (env : JsEnv) (dayStartMs dayEndMs : Int) (st : CopilotAcc)
    (dayEarliest dayLatest : Int) : Session :=
  let tokens := { st.tokens with
    total := st.tokens.input + st.tokens.output + st.tokens.reasoning +
      st.tokens.cacheRead + st.tokens.cacheWrite }
  let costUsd : Rat :=
    if 0 < tokens.total ∧ st.models ≠ [] then env.estimateCost (st.models.headD []) tokens else 0
  { id := st.sessionId
    tool := s2l "copilot"
    projectPath := st.projectPath
    projectName := st.projectName
    title := st.title
    startedAt := max dayStartMs dayEarliest
    endedAt := min dayEndMs dayLatest
    durationMs := sessionDurationMs st.activityTimestamps
    messageCount := st.userMessageCount + st.assistantMessageCount
    userMessageCount := st.userMessageCount
    assistantMessageCount := st.assistantMessageCount
    summary := st.title
    topics := match st.title with | some t => [t] | none => []
    tokens := tokens
    costUsd := costUsd
    models := st.models
    filesTouched := st.filesTouched
    conversationDigest := truncateConversationDigest
      (List.intercalate (s2l "\n\n") st.digestParts) env.digestMaxChars
    toolCallSummaries := st.toolCallSummaries.foldl setAdd [] }

/-- `CopilotParser.parseSessionFile`: the whole per-unit extraction. -/
def parseCopilotSessionFile (env : JsEnv) (dayStartMs dayEndMs : Int) (sessionId : Str)
    (workspace : WorkspaceMetadata) (events : List Json) : Option Session :=
  let st := copilotRun env dayStartMs dayEndMs sessionId workspace events
  match st.dayEarliest, st.dayLatest with
  | some dayEarliest, some dayLatest =>
    some (copilotAssemble env dayStartMs dayEndMs st dayEarliest dayLatest)
  | _, _ => none

/- ------------------------------------------------------------------ -/
/- Session summarization pipeline (the worklog summarizer source)     -/
/- ------------------------------------------------------------------ -/

def MAX_SUMMARY_CHUNKS : Nat := 12

/-- The split boundary of `splitDigestIntoChunks`: the regular expression
matches a blank-line separator directly followed by a `[User]:` or
`[Assistant]:` fragment head (the lookahead stays in the next piece). -/
def fragBoundary (s : Str) : Bool :=
  strStartsWith s (s2l "\n\n[User]:") || strStartsWith s (s2l "\n\n[Assistant]:")

/-- `digest.split(/\n\n(?=\[(?:User|Assistant)\]:)/)`: a match consumes the
two newline characters and the next piece starts at the bracket (a boundary
always has a second character, so the one-character fallback is inert and
agrees with consuming an empty remainder). -/
def splitFragmentBoundaries : Str → List Str
  | [] => [[]]
  | c :: rest =>
    if fragBoundary (c :: rest) then
      match rest with
      | _ :: rest2 => [] :: splitFragmentBoundaries rest2
      | [] => [[], []]
    else
      match splitFragmentBoundaries rest with
      | seg :: segs => (c :: seg) :: segs
      | [] => [[c]]

/-- The greedy chunk-accumulation loop of `splitDigestIntoChunks` (the
running `current` starts empty). -/
def accumChunks (targetChars : Nat) : List Str → Str → List Str
  | [], current => if current.isEmpty then [] else [current]
  | e :: es, current =>
    let candidate := if current.isEmpty then e else current ++ s2l "\n\n" ++ e
    if targetChars < candidate.length ∧ ¬ current.isEmpty then
      current :: accumChunks targetChars es e
    else accumChunks targetChars es candidate

/-- The grouping loop of `rebalanceChunks` (`index += groupSize`), driven
by a step counter that starts at the list length; every step consumes at
least one element (the source always passes a group size of at least 1), so
the counter never runs out before the list does. -/
def groupChunksF (gs : Nat) : Nat → List Str → List (List Str)
  | _, [] => []
  | 0, l => [l]
  | fuel + 1, a :: rest =>
    ((a :: rest).take (max gs 1)) :: groupChunksF gs fuel ((a :: rest).drop (max gs 1))

def groupChunks (gs : Nat) (l : List Str) : List (List Str) :=
  groupChunksF gs l.length l

/-- `rebalanceChunks`: merge adjacent chunks in ceiling-sized groups. -/
def rebalanceChunks (chunks : List Str) (maxChunks : Nat) : List Str :=
  if chunks.length ≤ maxChunks then chunks
  else
    let groupSize := (chunks.length + maxChunks - 1) / maxChunks
    (groupChunks groupSize chunks).map (List.intercalate (s2l "\n\n"))

/-- `splitDigestIntoChunks`. -/
def splitDigestIntoChunks (digest : Str) (targetChars : Nat) (maxChunks : Nat) : List Str :=
  if digest.length ≤ targetChars then [digest]
  else
    let entries := ((splitFragmentBoundaries digest).map jsTrim).filter (fun e => ¬ e.isEmpty)
    if entries.isEmpty then [digest]
    else
      let chunks := accumChunks targetChars entries []
      if chunks.length ≤ maxChunks then chunks else rebalanceChunks chunks maxChunks

/-- The prompt-building helpers of the summarizer with the project, session
and instruction block closed over: `buildSessionPrompt` keyed by the digest
text, `buildChunkSummaryPrompt` keyed by chunk text, 1-based index and chunk
count, and `buildChunkSynthesisPrompt` keyed by the ordered chunk summaries
and chunk count.  They are string formatters whose output feeds the external
call; the pipeline control flow verified here holds for every formatter. -/
structure PromptBuilders where
  sessionPrompt : Str → Str
  chunkPrompt : Str → Nat → Nat → Str
  synthesisPrompt : List Str → Nat → Str

/-- The per-chunk call loop of `summarizeSessionWithLlm`: call the
summarizer once per chunk in order and keep the successful results. -/
def collectChunkSummaries (call : Str → Option Str) (pb : PromptBuilders)
    (chunks : List Str) : List Str :=
  (chunks.enum).filterMap (fun p => call (pb.chunkPrompt p.2 (p.1 + 1) chunks.length))

/-- `summarizeSessionWithLlm` with the external `callSummarizer` modelled as
a deterministic `Str → Option Str` (a `none` is a failed, timed-out or
unconfigured call) and the chunk threshold already resolved by
`resolveSummaryChunkChars`. -/
def summarizeSessionWithLlm (call : Str → Option Str) (pb : PromptBuilders)
    (conversationDigest : Str) (chunkChars : Nat) : Option Str :=
  let digest := if conversationDigest.isEmpty then s2l "No transcript text available." else conversationDigest
  let prompt := pb.sessionPrompt digest
  if digest.length ≤ chunkChars then call prompt
  else
    let digestChunks := splitDigestIntoChunks digest chunkChars MAX_SUMMARY_CHUNKS
    let chunkSummaries := collectChunkSummaries call pb digestChunks
    if chunkSummaries.isEmpty then call prompt
    else
      match call (pb.synthesisPrompt chunkSummaries digestChunks.length) with
      | some s => some s
      | none => some (List.intercalate (s2l "\n\n") chunkSummaries)

/- ------------------------------------------------------------------ -/
/- spec-side definitions and concrete fixtures                        -/
/- ------------------------------------------------------------------ -/

/-- Follows the words of the spec (§4.3 step 8): the sum, over consecutive
pairs of the activity timestamps sorted ascending, of `min(gap, 5 minutes)`
for each strictly positive gap. -/
def specDurationMs (activity : List Int) : Int :=
  let sorted := activity.insertionSort (· ≤ ·)
  ((sorted.zip sorted.tail).map
    (fun p => if 0 < p.2 - p.1 then min (p.2 - p.1) 300000 else 0)).sum

/-- Whether a record carries a timestamp inside the requested day window
(Codex timestamp extraction). -/
def codexInDayB (env : JsEnv) (ds de : Int) (line : Json) : Bool :=
  match codexExtractTimestampMs env line with
  | some ts => decide (ds ≤ ts ∧ ts ≤ de)
  | none => false

/-- Whether a record carries a timestamp inside the requested day window
(Copilot timestamp extraction). -/
def copilotInDayB (env : JsEnv) (ds de : Int) (event : Json) : Bool :=
  match copilotExtractTimestampMs env event with
  | some ts => decide (ds ≤ ts ∧ ts ≤ de)
  | none => false

/-- A concrete runtime environment for the concrete evaluations: three
known date strings parse (one before the day window), numeric strings and
nested JSON strings never parse, the cost model is constantly zero. -/
def testEnv : JsEnv :=
  { parseDate := fun s =>
      if s = s2l "T1" then some 5000
      else if s = s2l "T2" then some 7000
      else if s = s2l "TOLD" then some (-50)
      else none
    parseNumber := fun _ => none
    jsonParse := fun _ => none
    estimateCost := fun _ _ => 0
    home := s2l "/home/u"
    digestMaxChars := 8000
    parseFuel := 4 }

/-- A Codex `event_msg`/`token_count` record with an in-day timestamp and a
positive input bucket — a unit record that is neither a message, nor a tool
invocation, nor a turn boundary. -/
def exTokenLine : Json :=
  .obj [(s2l "timestamp", .str (s2l "T1")),
        (s2l "type", .str (s2l "event_msg")),
        (s2l "payload", .obj [(s2l "type", .str (s2l "token_count")),
          (s2l "info", .obj [(s2l "last_token_usage", .obj [(s2l "input_tokens", .num 7)])])])]

/-- The same record with a negative `input_tokens` value. -/
def exNegTokenLine : Json :=
  .obj [(s2l "timestamp", .str (s2l "T1")),
        (s2l "type", .str (s2l "event_msg")),
        (s2l "payload", .obj [(s2l "type", .str (s2l "token_count")),
          (s2l "info", .obj [(s2l "last_token_usage", .obj [(s2l "input_tokens", .num (-5))])])])]

/-- A Codex structured user message with an in-day timestamp. -/
def exCodexUserLine : Json :=
  .obj [(s2l "timestamp", .str (s2l "T1")),
        (s2l "type", .str (s2l "response_item")),
        (s2l "payload", .obj [(s2l "type", .str (s2l "message")),
          (s2l "role", .str (s2l "user")),
          (s2l "content", .str (s2l "hello"))])]

/-- A Copilot event carrying a model name, timestamped before the day
window. -/
def exModelEvent : Json :=
  .obj [(s2l "timestamp", .str (s2l "TOLD")),
        (s2l "type", .str (s2l "model.change")),
        (s2l "data", .obj [(s2l "model", .str (s2l "m1"))])]

/-- A Copilot in-day user message event. -/
def exUserEvent : Json :=
  .obj [(s2l "timestamp", .str (s2l "T1")),
        (s2l "type", .str (s2l "user.message")),
        (s2l "data", .obj [(s2l "content", .str (s2l "hello"))])]

/-- A Copilot in-day `session.start` event (metadata only). -/
def exSessionStartEvent : Json :=
  .obj [(s2l "timestamp", .str (s2l "T1")),
        (s2l "type", .str (s2l "session.start")),
        (s2l "data", .obj [(s2l "sessionId", .str (s2l "sid-1"))])]

/-- An empty workspace sidecar result. -/
def exWorkspace : WorkspaceMetadata := { cwd := none, gitRoot := none, summary := none }

/-- A usage record whose input bucket matches at the outer object while the
output bucket appears only inside the nested `usage` container. -/
def exUsageRecord : Obj :=
  [(s2l "input_tokens", .num 5), (s2l "usage", .obj [(s2l "output_tokens", .num 7)])]


mutual

/-- All numeric leaves of a JSON value are non-negative. -/
def nonnegNums : Json → Bool
  | .num n => decide (0 ≤ n)
  | .arr items => nonnegNumsList items
  | .obj fields => nonnegNumsFields fields
  | _ => true

def nonnegNumsList : List Json → Bool
  | [] => true
  | j :: rest => nonnegNums j && nonnegNumsList rest

def nonnegNumsFields : Obj → Bool
  | [] => true
  | (_, v) :: rest => nonnegNums v && nonnegNumsFields rest

end

/-- Pointwise order on the five added token buckets. -/
def TokensLe (a b : TokenUsage) : Prop :=
  a.input ≤ b.input ∧ a.output ≤ b.output ∧ a.reasoning ≤ b.reasoning ∧
    a.cacheRead ≤ b.cacheRead ∧ a.cacheWrite ≤ b.cacheWrite

/-- The five accumulated token buckets are all non-negative (the `total`
field is recomputed at assembly and is not tracked here). -/
def TokensNonneg (t : TokenUsage) : Prop :=
  0 ≤ t.input ∧ 0 ≤ t.output ∧ 0 ≤ t.reasoning ∧ 0 ≤ t.cacheRead ∧ 0 ≤ t.cacheWrite


/-- The day-span invariant the Codex accumulator maintains: the two span
sentinels move together, stay clipped to the requested window, and bound
every collected activity timestamp. -/
def CodexSpanInv (ds de : Int) (st : CodexAcc) : Prop :=
  match st.dayEarliest, st.dayLatest with
  | some e, some l => ds ≤ e ∧ e ≤ l ∧ l ≤ de ∧ ∀ t ∈ st.activityTimestamps, e ≤ t ∧ t ≤ l
  | none, none => st.activityTimestamps = []
  | _, _ => False

/-- The day-span invariant of the Copilot accumulator. -/
def CopilotSpanInv (ds de : Int) (st : CopilotAcc) : Prop :=
  match st.dayEarliest, st.dayLatest with
  | some e, some l => ds ≤ e ∧ e ≤ l ∧ l ≤ de ∧ ∀ t ∈ st.activityTimestamps, e ≤ t ∧ t ≤ l
  | none, none => st.activityTimestamps = []
  | _, _ => False

/- ------------------------------------------------------------------ -/
/- basic facts about the string model                                 -/
/- ------------------------------------------------------------------ -/


theorem length_jsTrimEnd_le (s : Str) : (jsTrimEnd s).length ≤ s.length := by
  unfold jsTrimEnd
  rw [List.length_reverse]
  calc (s.reverse.dropWhile Char.isWhitespace).length
      ≤ s.reverse.length := length_dropWhile_le _ _
    _ = s.length := List.length_reverse s

theorem length_jsTrimStart_le (s : Str) : (jsTrimStart s).length ≤ s.length :=
  length_dropWhile_le _ s

theorem isPrefixOf_eq_true_iff (p : Str) : ∀ l : Str,
    p.isPrefixOf l = true ↔ ∃ t, p ++ t = l := by
  induction p with
  | nil =>
    intro l
    constructor
    · intro _
      exact ⟨l, rfl⟩
    · intro _
      cases l <;> rfl
  | cons c cs ih =>
    intro l
    cases l with
    | nil =>
      constructor
      · intro h
        exact absurd h (by simp [List.isPrefixOf])
      · rintro ⟨t, h⟩
        exact absurd h (by simp)
    | cons d ds =>
      show (c == d && cs.isPrefixOf ds) = true ↔ _
      rw [Bool.and_eq_true, beq_iff_eq, ih ds]
      constructor
      · rintro ⟨rfl, t, rfl⟩
        exact ⟨t, rfl⟩
      · rintro ⟨t, h⟩
        injection h with h1 h2
        exact ⟨h1, t, h2⟩

theorem strIncludes_iff (hay needle : Str) :
    strIncludes hay needle = true ↔ ∃ pre post, hay = pre ++ needle ++ post := by
  induction hay with
  | nil =>
    simp only [strIncludes]
    constructor
    · intro h
      refine ⟨[], [], ?_⟩
      have : needle = [] := by
        cases needle with
        | nil => rfl
        | cons c t => exact absurd h (by simp [List.isEmpty])
      simp [this]
    · rintro ⟨pre, post, h⟩
      have h1 : pre = [] ∧ needle ++ post = [] := List.append_eq_nil.mp (by simpa using h.symm)
      have h2 : needle = [] := (List.append_eq_nil.mp h1.2).1
      simp [h2, List.isEmpty]
  | cons c t ih =>
    simp only [strIncludes, Bool.or_eq_true]
    constructor
    · intro h
      rcases h with h | h
      · rcases (isPrefixOf_eq_true_iff needle (c :: t)).mp h with ⟨post, hpost⟩
        exact ⟨[], post, by simp [← hpost]⟩
      · rcases ih.mp h with ⟨pre, post, hh⟩
        exact ⟨c :: pre, post, by simp [hh]⟩
    · rintro ⟨pre, post, h⟩
      cases pre with
      | nil =>
        left
        exact (isPrefixOf_eq_true_iff needle (c :: t)).mpr ⟨post, by simpa using h.symm⟩
      | cons p ps =>
        right
        refine ih.mpr ⟨ps, post, ?_⟩
        rw [List.cons_append, List.cons_append] at h
        injection h with h1 h2

theorem strIncludes_append (pre needle post : Str) :
    strIncludes (pre ++ needle ++ post) needle = true :=
  (strIncludes_iff _ _).mpr ⟨pre, post, rfl⟩

/- ------------------------------------------------------------------ -/
/- C1 / C5 / C9 : the digest truncator                                -/
/- ------------------------------------------------------------------ -/

theorem marker_length : DIGEST_TRUNCATION_MARKER.length = 36 := by decide

theorem headChars_div_lt (budget : Nat) (h : 1 ≤ budget) : budget * 55 / 100 < budget := by
  omega

theorem truncate_parts_length (digest : Str) (hc tc : Nat) (htc : tc ≠ 0) :
    ((jsTrimEnd (jsTake digest hc) ++ DIGEST_TRUNCATION_MARKER ++
        jsTrimStart (jsSliceLast digest tc)).length : Int) ≤ (hc : Int) + 36 + tc := by
  have h1 : (jsTrimEnd (jsTake digest hc)).length ≤ hc := by
    calc (jsTrimEnd (jsTake digest hc)).length
        ≤ (jsTake digest hc).length := length_jsTrimEnd_le _
      _ ≤ hc := by simp [jsTake]
  have h2 : (jsTrimStart (jsSliceLast digest tc)).length ≤ tc := by
    refine le_trans (length_jsTrimStart_le _) ?_
    unfold jsSliceLast
    rw [if_neg htc]
    simp only [List.length_drop]
    omega
  simp only [List.length_append, marker_length]
  push_cast
  omega

theorem truncate_length_le (digest : Str) (maxChars : Int)
    (h : (36 : Int) < maxChars) :
    ((truncateConversationDigest digest maxChars).length : Int) ≤ maxChars := by
  have h0 : ¬ maxChars ≤ 0 := by omega
  by_cases hfit : (digest.length : Int) ≤ maxChars
  · unfold truncateConversationDigest
    rw [if_neg h0, if_pos hfit]
    exact hfit
  · unfold truncateConversationDigest
    rw [if_neg h0, if_neg hfit]
    simp only []
    refine le_trans (truncate_parts_length digest _ _ ?_) ?_
    · rw [marker_length]
      omega
    · rw [marker_length]
      push_cast
      omega

/-- C1: the claim asserts the truncation result never exceeds the budget for
every positive budget, including budgets at most the 36-character truncation
marker.  For such small budgets the head/tail budget collapses to 0 and the
`slice(-0)` tail keeps the whole digest, so the result exceeds the budget:
a 40-character digest truncated to 10 characters yields 76 characters. -/
theorem truncate_budget_cx :
    ¬ ((truncateConversationDigest (List.replicate 40 'a') 10).length : Int) ≤ 10 := by
  decide

/-- C1 (amended): for every digest and every budget strictly larger than the
36-character truncation marker, the truncation result fits the budget. -/
theorem truncate_budget (digest : Str) (maxChars : Int) (h : (36 : Int) < maxChars) :
    ((truncateConversationDigest digest maxChars).length : Int) ≤ maxChars :=
  truncate_length_le digest maxChars h

/-- C1 witness: instantiating the amended bound at a concrete long digest and
budget 40. -/
theorem truncate_budget_witness :
    ((truncateConversationDigest (List.replicate 100 'b') 40).length : Int) ≤ 40 :=
  truncate_budget (List.replicate 100 'b') 40 (by norm_num)

/-- C9: idempotence fails for small positive budgets: truncating a
40-character digest to budget 10 produces a 76-character string, and a second
truncation at budget 10 changes it again. -/
theorem truncate_idempotent_cx :
    ¬ (truncateConversationDigest
        (truncateConversationDigest (List.replicate 40 'a') 10) 10 =
      truncateConversationDigest (List.replicate 40 'a') 10) := by
  decide

/-- C9 (amended): truncation is idempotent for every non-positive budget (cap
disabled) and for every budget strictly larger than the 36-character marker;
in particular a digest that already fits the budget is returned unchanged. -/
theorem truncate_idempotent (digest : Str) (maxChars : Int)
    (h : maxChars ≤ 0 ∨ (36 : Int) < maxChars) :
    truncateConversationDigest (truncateConversationDigest digest maxChars) maxChars =
      truncateConversationDigest digest maxChars := by
  rcases h with h | h
  · unfold truncateConversationDigest
    simp [h]
  · have h0 : ¬ maxChars ≤ 0 := by omega
    set t := truncateConversationDigest digest maxChars with ht
    have hlen : (t.length : Int) ≤ maxChars := by
      rw [ht]
      exact truncate_length_le digest maxChars h
    unfold truncateConversationDigest
    rw [if_neg h0, if_pos hlen]

/-- C9 witness: idempotence applied at a concrete digest and budget 50. -/
theorem truncate_idempotent_witness :
    truncateConversationDigest
        (truncateConversationDigest (List.replicate 80 'c') 50) 50 =
      truncateConversationDigest (List.replicate 80 'c') 50 :=
  truncate_idempotent (List.replicate 80 'c') 50 (by norm_num)

/-- C5: the claim calls every string that `truncateConversationDigest`
returns unchanged an untruncated digest and requires `isDigestTruncated` to
be false on it.  The marker string itself fits a budget of 100 and is
returned unchanged, yet `isDigestTruncated` reports it truncated. -/
theorem isDigestTruncated_cx :
    truncateConversationDigest DIGEST_TRUNCATION_MARKER 100 = DIGEST_TRUNCATION_MARKER ∧
      isDigestTruncated DIGEST_TRUNCATION_MARKER = true := by
  constructor
  · decide
  · decide

/-- C5 (amended): `isDigestTruncated` is true on every string an actual
truncation produces (the input exceeded a positive budget and was cut), and
it is false exactly on the strings that do not contain the truncation marker
as a substring — so the only false positives are inputs that already embed
the literal marker. -/
theorem isDigestTruncated_exact (digest : Str) (maxChars : Int)
    (hpos : 0 < maxChars) (hlong : maxChars < (digest.length : Int)) :
    isDigestTruncated (truncateConversationDigest digest maxChars) = true ∧
      ∀ s : Str, isDigestTruncated s = false ↔
        ¬ ∃ pre post, s = pre ++ DIGEST_TRUNCATION_MARKER ++ post := by
  constructor
  · unfold truncateConversationDigest
    have h0 : ¬ maxChars ≤ 0 := by omega
    have h1 : ¬ (digest.length : Int) ≤ maxChars := by omega
    rw [if_neg h0, if_neg h1]
    simp only []
    exact strIncludes_append _ _ _
  · intro s
    unfold isDigestTruncated
    constructor
    · intro hfalse hex
      rcases hex with ⟨pre, post, rfl⟩
      rw [strIncludes_append] at hfalse
      exact absurd hfalse (by decide)
    · intro hno
      cases hinc : strIncludes s DIGEST_TRUNCATION_MARKER with
      | false => rfl
      | true => exact absurd ((strIncludes_iff s _).mp hinc) hno

/-- C5 witness: a concrete over-budget digest is marked truncated, and a
concrete marker-free string is not. -/
theorem isDigestTruncated_exact_witness :
    isDigestTruncated (truncateConversationDigest (List.replicate 60 'd') 40) = true ∧
      isDigestTruncated (s2l "[User]: full digest") = false := by
  have h := isDigestTruncated_exact (List.replicate 60 'd') 40 (by norm_num) (by norm_num)
  refine ⟨h.1, ?_⟩
  rw [h.2 (s2l "[User]: full digest")]
  intro hex
  have : strIncludes (s2l "[User]: full digest") DIGEST_TRUNCATION_MARKER = true :=
    (strIncludes_iff _ _).mpr hex
  exact absurd this (by decide)

/- ------------------------------------------------------------------ -/
/- duration lemmas                                                    -/
/- ------------------------------------------------------------------ -/

theorem cappedGaps_nonneg : ∀ l : List Int, 0 ≤ cappedGaps l := by
  intro l
  induction l with
  | nil => simp [cappedGaps]
  | cons a rest ih =>
    cases rest with
    | nil => simp [cappedGaps]
    | cons b t =>
      simp only [cappedGaps]
      have hstep : 0 ≤ (if 0 < b - a then min (b - a) MAX_EVENT_GAP_MS else 0) := by
        by_cases h : 0 < b - a
        · simp only [h, if_true]
          have : (MAX_EVENT_GAP_MS : Int) = 300000 := rfl
          omega
        · simp [h]
      omega

theorem cappedGaps_le_bounds : ∀ l : List Int, l.Sorted (· ≤ ·) →
    ∀ lo hi : Int, lo ≤ hi → (∀ x ∈ l, lo ≤ x ∧ x ≤ hi) → cappedGaps l ≤ hi - lo := by
  intro l
  induction l with
  | nil =>
    intro _ lo hi hlohi _
    simp only [cappedGaps]
    omega
  | cons a rest ih =>
    intro hsorted lo hi hlohi hbound
    cases rest with
    | nil =>
      simp only [cappedGaps]
      omega
    | cons b t =>
      have hab : a ≤ b := (List.sorted_cons.mp hsorted).1 b (by simp)
      have hsorted2 : (b :: t).Sorted (· ≤ ·) := (List.sorted_cons.mp hsorted).2
      have hbound2 : ∀ x ∈ b :: t, b ≤ x ∧ x ≤ hi := by
        intro x hx
        refine ⟨?_, (hbound x (List.mem_cons_of_mem a hx)).2⟩
        rcases List.mem_cons.mp hx with rfl | hx2
        · exact le_refl x
        · exact (List.sorted_cons.mp hsorted2).1 x hx2
      have hbhi : b ≤ hi := (hbound b (by simp)).2
      have hrec := ih hsorted2 b hi hbhi hbound2
      have hlo : lo ≤ a := (hbound a (by simp)).1
      simp only [cappedGaps]
      have hstep : (if 0 < b - a then min (b - a) MAX_EVENT_GAP_MS else 0) ≤ b - a := by
        by_cases h : 0 < b - a
        · simp only [h, if_true]
          exact min_le_left _ _
        · simp only [h, if_false]
          omega
      omega

theorem sessionDurationMs_nonneg (activity : List Int) : 0 ≤ sessionDurationMs activity :=
  cappedGaps_nonneg _

theorem sessionDurationMs_le_span (activity : List Int) (lo hi : Int) (hlohi : lo ≤ hi)
    (hb : ∀ x ∈ activity, lo ≤ x ∧ x ≤ hi) : sessionDurationMs activity ≤ hi - lo := by
  unfold sessionDurationMs
  refine cappedGaps_le_bounds _ (List.sorted_insertionSort _ _) lo hi hlohi ?_
  intro x hx
  exact hb x ((List.perm_insertionSort (· ≤ ·) activity).mem_iff.mp hx)

theorem cappedGaps_eq_zip_sum : ∀ l : List Int,
    cappedGaps l = ((l.zip l.tail).map
      (fun p => if 0 < p.2 - p.1 then min (p.2 - p.1) 300000 else 0)).sum := by
  intro l
  induction l with
  | nil => simp [cappedGaps]
  | cons a rest ih =>
    cases rest with
    | nil => simp [cappedGaps]
    | cons b t =>
      simp only [cappedGaps, List.tail_cons, List.zip_cons_cons, List.map_cons, List.sum_cons]
      rw [ih]
      rfl

/- ------------------------------------------------------------------ -/
/- parse inversion                                                    -/
/- ------------------------------------------------------------------ -/

theorem parseCodex_some (env : JsEnv) (ds de : Int) (base : Str) (lines : List Json)
    (s : Session) (h : parseCodexSessionFile env ds de base lines = some s) :
    ∃ e l, (codexRun env ds de base lines).dayEarliest = some e ∧
      (codexRun env ds de base lines).dayLatest = some l ∧
      s = codexAssemble env ds de (codexRun env ds de base lines) e l := by
  simp only [parseCodexSessionFile] at h
  rcases he : (codexRun env ds de base lines).dayEarliest with _ | e <;>
    rcases hl : (codexRun env ds de base lines).dayLatest with _ | l <;>
      rw [he, hl] at h <;> simp at h
  exact ⟨e, l, rfl, rfl, h.symm⟩

theorem parseCopilot_some (env : JsEnv) (ds de : Int) (sid : Str) (ws : WorkspaceMetadata)
    (events : List Json) (s : Session)
    (h : parseCopilotSessionFile env ds de sid ws events = some s) :
    ∃ e l, (copilotRun env ds de sid ws events).dayEarliest = some e ∧
      (copilotRun env ds de sid ws events).dayLatest = some l ∧
      s = copilotAssemble env ds de (copilotRun env ds de sid ws events) e l := by
  simp only [parseCopilotSessionFile] at h
  rcases he : (copilotRun env ds de sid ws events).dayEarliest with _ | e <;>
    rcases hl : (copilotRun env ds de sid ws events).dayLatest with _ | l <;>
      rw [he, hl] at h <;> simp at h
  exact ⟨e, l, rfl, rfl, h.symm⟩

theorem codexAssemble_durationMs (env : JsEnv) (ds de : Int) (st : CodexAcc) (e l : Int) :
    (codexAssemble env ds de st e l).durationMs = sessionDurationMs st.activityTimestamps := rfl

theorem copilotAssemble_durationMs (env : JsEnv) (ds de : Int) (st : CopilotAcc) (e l : Int) :
    (copilotAssemble env ds de st e l).durationMs = sessionDurationMs st.activityTimestamps := rfl

/-- C2: for every Session either extractor produces, the duration is the
sum, over consecutive pairs of the activity timestamps sorted ascending, of
`min(gap, 300000 ms)` over the strictly positive gaps (stated by the
spec-worded `specDurationMs`); in particular activity timestamps
`[t0, t0+1000, t0+1000+400000]` give 301000 ms, not 401000 ms. -/
theorem duration_capped_gap_sum :
    (∀ activity : List Int, sessionDurationMs activity = specDurationMs activity) ∧
    (∀ t0 : Int, sessionDurationMs [t0, t0 + 1000, t0 + 1000 + 400000] = 301000) ∧
    (∀ env ds de base lines s, parseCodexSessionFile env ds de base lines = some s →
      s.durationMs = specDurationMs (codexRun env ds de base lines).activityTimestamps) ∧
    (∀ env ds de sid ws events s, parseCopilotSessionFile env ds de sid ws events = some s →
      s.durationMs = specDurationMs (copilotRun env ds de sid ws events).activityTimestamps) := by
  have part1 : ∀ activity : List Int, sessionDurationMs activity = specDurationMs activity := by
    intro activity
    simp only [sessionDurationMs, specDurationMs]
    exact cappedGaps_eq_zip_sum _
  refine ⟨part1, ?_, ?_, ?_⟩
  · intro t0
    unfold sessionDurationMs
    rw [List.Sorted.insertionSort_eq]
    · have e1 : t0 + 1000 - t0 = (1000 : Int) := by ring
      have e2 : t0 + 1000 + 400000 - (t0 + 1000) = (400000 : Int) := by ring
      simp only [cappedGaps, e1, e2]
      norm_num [MAX_EVENT_GAP_MS, min_def]
    · simp only [List.sorted_cons, List.mem_cons, List.mem_singleton, List.not_mem_nil]
      refine ⟨?_, ?_, ?_⟩ <;> try intro b hb
      · rcases hb with rfl | rfl | hb
        · omega
        · omega
        · simp at hb
      · rcases hb with rfl | hb
        · omega
        · simp at hb
      · simp
  · intro env ds de base lines s h
    rcases parseCodex_some env ds de base lines s h with ⟨e, l, _, _, rfl⟩
    rw [codexAssemble_durationMs]
    exact part1 _
  · intro env ds de sid ws events s h
    rcases parseCopilot_some env ds de sid ws events s h with ⟨e, l, _, _, rfl⟩
    rw [copilotAssemble_durationMs]
    exact part1 _

/-- C2 witness: the Codex parse of a one-message unit satisfies the
capped-gap duration formula. -/
theorem duration_capped_gap_sum_witness :
    Option.map Session.durationMs (parseCodexSessionFile testEnv 0 86399999 (s2l "f") [exCodexUserLine]) =
      some (specDurationMs (codexRun testEnv 0 86399999 (s2l "f") [exCodexUserLine]).activityTimestamps) := by
  rcases hp : parseCodexSessionFile testEnv 0 86399999 (s2l "f") [exCodexUserLine] with _ | s
  · exact absurd hp (by decide)
  · have hd := duration_capped_gap_sum.2.2.1 testEnv 0 86399999 (s2l "f") [exCodexUserLine] s hp
    simp [hd]

/-- C8: chunked summarization of an over-threshold digest: when at least
one per-chunk call succeeded and the synthesis call fails, the result is
the blank-line-joined concatenation of the successful per-chunk summaries
in chunk order; when every per-chunk call fails, a single whole-digest
call is made instead and its result returned. -/
theorem chunked_summarization_fallback (call : Str → Option Str) (pb : PromptBuilders)
    (d : Str) (cc : Nat) (hne : d.isEmpty = false) (hlong : cc < d.length) :
    (collectChunkSummaries call pb (splitDigestIntoChunks d cc MAX_SUMMARY_CHUNKS) ≠ [] →
      call (pb.synthesisPrompt
        (collectChunkSummaries call pb (splitDigestIntoChunks d cc MAX_SUMMARY_CHUNKS))
        (splitDigestIntoChunks d cc MAX_SUMMARY_CHUNKS).length) = none →
      summarizeSessionWithLlm call pb d cc =
        some (List.intercalate (s2l "\n\n")
          (collectChunkSummaries call pb (splitDigestIntoChunks d cc MAX_SUMMARY_CHUNKS)))) ∧
    (collectChunkSummaries call pb (splitDigestIntoChunks d cc MAX_SUMMARY_CHUNKS) = [] →
      summarizeSessionWithLlm call pb d cc = call (pb.sessionPrompt d)) := by
  have hfit : ¬ d.length ≤ cc := by omega
  constructor
  · intro hsome hsynth
    simp only [summarizeSessionWithLlm, hne, Bool.false_eq_true, if_false, hfit, hsynth]
    simp [List.isEmpty_iff, hsome]
  · intro hnone
    simp only [summarizeSessionWithLlm, hne, Bool.false_eq_true, if_false, hfit, hnone]
    simp

/-- A concrete summarizer oracle for the C8 witness: every prompt succeeds
echoing itself except the synthesis prompt, which fails. -/
def exCall : Str → Option Str :=
  fun p => if p = s2l "SYNTH" then none else some p

/-- Concrete prompt builders for the C8 witness. -/
def exBuilders : PromptBuilders :=
  { sessionPrompt := fun d => d
    chunkPrompt := fun c _ _ => c
    synthesisPrompt := fun _ _ => s2l "SYNTH" }

/-- A two-fragment digest exceeding a 20-character chunk threshold. -/
def exDigest : Str := s2l "[User]: aaaaaaaa\n\n[Assistant]: bbbbbbbb"

/-- C8 witness: on the concrete two-fragment digest whose synthesis call is
made to fail, the pipeline returns the concatenation of the two per-chunk
summaries. -/
theorem chunked_summarization_fallback_witness :
    summarizeSessionWithLlm exCall exBuilders exDigest 20 =
      some (List.intercalate (s2l "\n\n")
        (collectChunkSummaries exCall exBuilders (splitDigestIntoChunks exDigest 20 MAX_SUMMARY_CHUNKS))) :=
  (chunked_summarization_fallback exCall exBuilders exDigest 20 (by decide) (by decide)).1
    (by decide) (by decide)

/-- C4 counterexample: in a usage record whose `input_tokens` alias matches
at the outer object while the output alias appears only inside the nested
`usage` container, the merge takes the outer input bucket and leaves the
output bucket at 0 — the claim expects the nested output alias to still be
found (7). -/
theorem usage_search_per_bucket_cx :
    numberOrNull testEnv (jLookup ((oObj (jLookup exUsageRecord (s2l "usage"))).getD [])
      (s2l "output_tokens")) = some 7 ∧
    (visitUsageRecord testEnv (.obj exUsageRecord) emptyTokenUsage).input = 5 ∧
    (visitUsageRecord testEnv (.obj exUsageRecord) emptyTokenUsage).output = 0 := by
  refine ⟨by decide, by decide, by decide⟩

/-- C4 (amended): the alias search is per-record, not per-bucket.  All five
bucket alias lists are consulted at the current object; if any bucket
matches there, the matched buckets are added (unmatched ones contribute 0)
and the search stops without recursing; only when no bucket matches at the
current object does the search recurse into the nested container keys
(`usage`, `tokenUsage`, `tokens`, `metrics`, `result`) in order, with the
depth bounded by 3. -/
theorem usage_search_per_record (env : JsEnv) (record : Obj) (tokens : TokenUsage) :
    ((applyUsageFromRecord env record tokens).1 = true →
      visitUsageRecord env (.obj record) tokens = (applyUsageFromRecord env record tokens).2) ∧
    ((applyUsageFromRecord env record tokens).1 = false →
      visitUsageRecord env (.obj record) tokens =
        [s2l "usage", s2l "tokenUsage", s2l "tokens", s2l "metrics", s2l "result"].foldl
          (fun tk key =>
            match jLookup record key with
            | some v => visitUsage env 3 v tk
            | none => tk) tokens) := by
  constructor
  · intro h
    unfold visitUsageRecord visitUsage
    simp only [oObj]
    rcases happ : applyUsageFromRecord env record tokens with ⟨b, t⟩
    cases b
    · simp [happ] at h
    · rfl
  · intro h
    unfold visitUsageRecord visitUsage
    simp only [oObj]
    rcases happ : applyUsageFromRecord env record tokens with ⟨b, t⟩
    cases b
    · rfl
    · simp [happ] at h

/-- C4 witness: on the concrete mixed record the outer input match wins and
the merge result equals the outer-object application. -/
theorem usage_search_per_record_witness :
    visitUsageRecord testEnv (.obj exUsageRecord) emptyTokenUsage =
      (applyUsageFromRecord testEnv exUsageRecord emptyTokenUsage).2 :=
  (usage_search_per_record testEnv exUsageRecord emptyTokenUsage).1 (by decide)

/- ------------------------------------------------------------------ -/
/- Codex step lemmas                                                  -/
/- ------------------------------------------------------------------ -/

theorem codexApplyMeta_agg (st : CodexAcc) (line : Json) :
    (codexApplyMeta st line).title = st.title ∧
    (codexApplyMeta st line).userMessageCount = st.userMessageCount ∧
    (codexApplyMeta st line).assistantMessageCount = st.assistantMessageCount ∧
    (codexApplyMeta st line).models = st.models ∧
    (codexApplyMeta st line).tokens = st.tokens ∧
    (codexApplyMeta st line).filesTouched = st.filesTouched ∧
    (codexApplyMeta st line).toolCallSummaries = st.toolCallSummaries ∧
    (codexApplyMeta st line).digestParts = st.digestParts ∧
    (codexApplyMeta st line).activityTimestamps = st.activityTimestamps ∧
    (codexApplyMeta st line).sawStructuredMessages = st.sawStructuredMessages ∧
    (codexApplyMeta st line).dayEarliest = st.dayEarliest ∧
    (codexApplyMeta st line).dayLatest = st.dayLatest := by
  unfold codexApplyMeta
  repeat' split <;> try simp

theorem codexEventMsg_day (st : CodexAcc) (ts : Int) (payload : Obj) :
    (codexEventMsg st ts payload).dayEarliest = st.dayEarliest ∧
    (codexEventMsg st ts payload).dayLatest = st.dayLatest := by
  unfold codexEventMsg
  simp only []
  repeat' split <;> try simp

theorem codexResponseItem_day (env : JsEnv) (st : CodexAcc) (ts : Int) (payload : Obj) :
    (codexResponseItem env st ts payload).dayEarliest = st.dayEarliest ∧
    (codexResponseItem env st ts payload).dayLatest = st.dayLatest := by
  unfold codexResponseItem
  simp only []
  repeat' split <;> try simp

theorem codexDispatch_day (env : JsEnv) (st : CodexAcc) (ts : Int) (line : Json) :
    (codexDispatch env st ts line).dayEarliest = st.dayEarliest ∧
    (codexDispatch env st ts line).dayLatest = st.dayLatest := by
  unfold codexDispatch
  repeat' split <;>
    first
    | exact ⟨rfl, rfl⟩
    | exact codexEventMsg_day _ _ _
    | exact codexResponseItem_day _ _ _ _
    | try simp

theorem codexEventMsg_activity (st : CodexAcc) (ts : Int) (payload : Obj) :
    (codexEventMsg st ts payload).activityTimestamps = st.activityTimestamps ∨
    (codexEventMsg st ts payload).activityTimestamps = st.activityTimestamps ++ [ts] := by
  unfold codexEventMsg
  simp only []
  repeat' split <;> try simp

theorem codexResponseItem_activity (env : JsEnv) (st : CodexAcc) (ts : Int) (payload : Obj) :
    (codexResponseItem env st ts payload).activityTimestamps = st.activityTimestamps ∨
    (codexResponseItem env st ts payload).activityTimestamps = st.activityTimestamps ++ [ts] := by
  unfold codexResponseItem
  simp only []
  repeat' split <;> try simp

theorem codexDispatch_activity (env : JsEnv) (st : CodexAcc) (ts : Int) (line : Json) :
    (codexDispatch env st ts line).activityTimestamps = st.activityTimestamps ∨
    (codexDispatch env st ts line).activityTimestamps = st.activityTimestamps ++ [ts] := by
  unfold codexDispatch
  repeat' split <;>
    first
    | exact Or.inl rfl
    | exact codexEventMsg_activity _ _ _
    | exact codexResponseItem_activity _ _ _ _
    | try simp

theorem codexResponseItem_tokens (env : JsEnv) (st : CodexAcc) (ts : Int) (payload : Obj) :
    (codexResponseItem env st ts payload).tokens = st.tokens := by
  unfold codexResponseItem
  simp only []
  repeat' split <;> try simp

theorem codexEventMsg_tokens (st : CodexAcc) (ts : Int) (payload : Obj) :
    (codexEventMsg st ts payload).tokens = st.tokens ∨
    (codexEventMsg st ts payload).tokens = codexAddTokenUsage st.tokens payload := by
  unfold codexEventMsg
  simp only []
  repeat' split <;> first | exact Or.inl rfl | exact Or.inr rfl | try simp

theorem codexDispatch_tokens (env : JsEnv) (st : CodexAcc) (ts : Int) (line : Json) :
    (codexDispatch env st ts line).tokens = st.tokens ∨
    ∃ payload, oObj (jGet line (s2l "payload")) = some payload ∧
      (codexDispatch env st ts line).tokens = codexAddTokenUsage st.tokens payload := by
  unfold codexDispatch
  repeat' split <;>
    first
    | exact Or.inl rfl
    | exact Or.inl (codexResponseItem_tokens _ _ _ _)
    | (rename_i payload heq
       rcases codexEventMsg_tokens _ ts payload with h | h
       · exact Or.inl h
       · exact Or.inr ⟨payload, heq, h⟩)
    | try simp

theorem codexApplyMeta_dayE (st : CodexAcc) (line : Json) :
    (codexApplyMeta st line).dayEarliest = st.dayEarliest :=
  (codexApplyMeta_agg st line).2.2.2.2.2.2.2.2.2.2.1

theorem codexApplyMeta_dayL (st : CodexAcc) (line : Json) :
    (codexApplyMeta st line).dayLatest = st.dayLatest :=
  (codexApplyMeta_agg st line).2.2.2.2.2.2.2.2.2.2.2

theorem codexStep_day (env : JsEnv) (ds de : Int) (st : CodexAcc) (line : Json) :
    ((codexStep env ds de st line).dayEarliest = none ↔
      st.dayEarliest = none ∧ codexInDayB env ds de line = false) ∧
    ((codexStep env ds de st line).dayLatest = none ↔
      st.dayLatest = none ∧ codexInDayB env ds de line = false) := by
  unfold codexStep codexInDayB
  rcases hts : codexExtractTimestampMs env line with _ | ts
  · simp [codexApplyMeta_dayE, codexApplyMeta_dayL]
  · by_cases hin : ds ≤ ts ∧ ts ≤ de
    · simp only [if_pos hin]
      have h1 := (codexDispatch_day env (codexSpan (codexApplyMeta st line) ts) ts line).1
      have h2 := (codexDispatch_day env (codexSpan (codexApplyMeta st line) ts) ts line).2
      rw [h1, h2]
      simp [codexSpan, hin]
    · simp only [if_neg hin]
      rw [codexApplyMeta_dayE, codexApplyMeta_dayL]
      simp [hin]

theorem codexFold_day_none (env : JsEnv) (ds de : Int) : ∀ (lines : List Json) (st : CodexAcc),
    ((lines.foldl (codexStep env ds de) st).dayEarliest = none ↔
      st.dayEarliest = none ∧ ∀ line ∈ lines, codexInDayB env ds de line = false) ∧
    ((lines.foldl (codexStep env ds de) st).dayLatest = none ↔
      st.dayLatest = none ∧ ∀ line ∈ lines, codexInDayB env ds de line = false) := by
  intro lines
  induction lines with
  | nil => intro st; simp
  | cons l ls ih =>
    intro st
    simp only [List.foldl_cons]
    constructor
    · rw [(ih (codexStep env ds de st l)).1, (codexStep_day env ds de st l).1]
      simp only [List.mem_cons]
      constructor
      · rintro ⟨⟨h1, h2⟩, h3⟩
        exact ⟨h1, by rintro line (rfl | hm); exacts [h2, h3 line hm]⟩
      · rintro ⟨h1, h2⟩
        exact ⟨⟨h1, h2 l (Or.inl rfl)⟩, fun line hm => h2 line (Or.inr hm)⟩
    · rw [(ih (codexStep env ds de st l)).2, (codexStep_day env ds de st l).2]
      simp only [List.mem_cons]
      constructor
      · rintro ⟨⟨h1, h2⟩, h3⟩
        exact ⟨h1, by rintro line (rfl | hm); exacts [h2, h3 line hm]⟩
      · rintro ⟨h1, h2⟩
        exact ⟨⟨h1, h2 l (Or.inl rfl)⟩, fun line hm => h2 line (Or.inr hm)⟩

theorem parseCodex_none_iff (env : JsEnv) (ds de : Int) (base : Str) (lines : List Json) :
    parseCodexSessionFile env ds de base lines = none ↔
      ∀ line ∈ lines, codexInDayB env ds de line = false := by
  have hrunE : (codexRun env ds de base lines).dayEarliest = none ↔
      ∀ line ∈ lines, codexInDayB env ds de line = false := by
    have h := (codexFold_day_none env ds de lines (codexInit base)).1
    simpa [codexRun, codexInit] using h
  have hrunL : (codexRun env ds de base lines).dayLatest = none ↔
      ∀ line ∈ lines, codexInDayB env ds de line = false := by
    have h := (codexFold_day_none env ds de lines (codexInit base)).2
    simpa [codexRun, codexInit] using h
  simp only [parseCodexSessionFile]
  rcases he : (codexRun env ds de base lines).dayEarliest with _ | e <;>
    rcases hl : (codexRun env ds de base lines).dayLatest with _ | l
  · simpa using hrunE.mp he
  · simpa using hrunE.mp he
  · simpa using hrunL.mp hl
  · simp only []
    constructor
    · intro h
      exact absurd h (by simp)
    · intro h
      have hnone := hrunE.mpr h
      rw [he] at hnone
      exact absurd hnone (by simp)

/- ------------------------------------------------------------------ -/
/- Copilot step lemmas                                                -/
/- ------------------------------------------------------------------ -/

theorem copilotApplyMeta_agg (st : CopilotAcc) (event : Json) :
    (copilotApplyMeta st event).userMessageCount = st.userMessageCount ∧
    (copilotApplyMeta st event).assistantMessageCount = st.assistantMessageCount ∧
    (copilotApplyMeta st event).models = st.models ∧
    (copilotApplyMeta st event).tokens = st.tokens ∧
    (copilotApplyMeta st event).filesTouched = st.filesTouched ∧
    (copilotApplyMeta st event).toolCallSummaries = st.toolCallSummaries ∧
    (copilotApplyMeta st event).digestParts = st.digestParts ∧
    (copilotApplyMeta st event).activityTimestamps = st.activityTimestamps ∧
    (copilotApplyMeta st event).dayEarliest = st.dayEarliest ∧
    (copilotApplyMeta st event).dayLatest = st.dayLatest := by
  unfold copilotApplyMeta
  simp only []
  repeat' split <;> try simp

theorem copilotToolRequests_agg (env : JsEnv) (requests : List Json) : ∀ st : CopilotAcc,
    (copilotToolRequests env st requests).sessionId = st.sessionId ∧
    (copilotToolRequests env st requests).projectPath = st.projectPath ∧
    (copilotToolRequests env st requests).projectName = st.projectName ∧
    (copilotToolRequests env st requests).title = st.title ∧
    (copilotToolRequests env st requests).userMessageCount = st.userMessageCount ∧
    (copilotToolRequests env st requests).assistantMessageCount = st.assistantMessageCount ∧
    (copilotToolRequests env st requests).models = st.models ∧
    (copilotToolRequests env st requests).tokens = st.tokens ∧
    (copilotToolRequests env st requests).digestParts = st.digestParts ∧
    (copilotToolRequests env st requests).activityTimestamps = st.activityTimestamps ∧
    (copilotToolRequests env st requests).dayEarliest = st.dayEarliest ∧
    (copilotToolRequests env st requests).dayLatest = st.dayLatest := by
  induction requests with
  | nil =>
    intro st
    simp only [copilotToolRequests]
    repeat' constructor
  | cons request rest ih =>
    intro st
    rcases request with _ | b | n | s2 | items | req
    case obj =>
      simp only [copilotToolRequests]
      split <;> simp [ih]
    all_goals simpa [copilotToolRequests] using ih st

theorem copilotToolRequests_dayE (env : JsEnv) (requests : List Json) (st : CopilotAcc) :
    (copilotToolRequests env st requests).dayEarliest = st.dayEarliest :=
  (copilotToolRequests_agg env requests st).2.2.2.2.2.2.2.2.2.2.1

theorem copilotToolRequests_dayL (env : JsEnv) (requests : List Json) (st : CopilotAcc) :
    (copilotToolRequests env st requests).dayLatest = st.dayLatest :=
  (copilotToolRequests_agg env requests st).2.2.2.2.2.2.2.2.2.2.2

theorem copilotToolRequests_activity (env : JsEnv) (requests : List Json) (st : CopilotAcc) :
    (copilotToolRequests env st requests).activityTimestamps = st.activityTimestamps :=
  (copilotToolRequests_agg env requests st).2.2.2.2.2.2.2.2.2.1

theorem copilotToolRequests_tokens (env : JsEnv) (requests : List Json) (st : CopilotAcc) :
    (copilotToolRequests env st requests).tokens = st.tokens :=
  (copilotToolRequests_agg env requests st).2.2.2.2.2.2.2.1

theorem copilotDispatch_day (env : JsEnv) (st : CopilotAcc) (ts : Int) (event : Json)
    (data : Option Obj) :
    (copilotDispatch env st ts event data).dayEarliest = st.dayEarliest ∧
    (copilotDispatch env st ts event data).dayLatest = st.dayLatest := by
  unfold copilotDispatch
  simp only []
  (repeat' split) <;>
    first
    | exact ⟨rfl, rfl⟩
    | (constructor <;> simp [copilotToolRequests_dayE, copilotToolRequests_dayL])

theorem copilotDispatch_activity (env : JsEnv) (st : CopilotAcc) (ts : Int) (event : Json)
    (data : Option Obj) :
    (copilotDispatch env st ts event data).activityTimestamps = st.activityTimestamps ∨
    (copilotDispatch env st ts event data).activityTimestamps = st.activityTimestamps ++ [ts] := by
  unfold copilotDispatch
  simp only []
  (repeat' split) <;>
    first
    | exact Or.inl rfl
    | exact Or.inr rfl
    | (right; simp [copilotToolRequests_activity])

theorem copilotDispatch_tokens (env : JsEnv) (st : CopilotAcc) (ts : Int) (event : Json)
    (data : Option Obj) :
    (copilotDispatch env st ts event data).tokens = st.tokens := by
  unfold copilotDispatch
  simp only []
  (repeat' split) <;>
    first
    | rfl
    | simp [copilotToolRequests_tokens]

theorem copilotApplyMeta_dayE (st : CopilotAcc) (event : Json) :
    (copilotApplyMeta st event).dayEarliest = st.dayEarliest :=
  (copilotApplyMeta_agg st event).2.2.2.2.2.2.2.2.1

theorem copilotApplyMeta_dayL (st : CopilotAcc) (event : Json) :
    (copilotApplyMeta st event).dayLatest = st.dayLatest :=
  (copilotApplyMeta_agg st event).2.2.2.2.2.2.2.2.2

theorem copilotStep_day (env : JsEnv) (ds de : Int) (st : CopilotAcc) (event : Json) :
    ((copilotStep env ds de st event).dayEarliest = none ↔
      st.dayEarliest = none ∧ copilotInDayB env ds de event = false) ∧
    ((copilotStep env ds de st event).dayLatest = none ↔
      st.dayLatest = none ∧ copilotInDayB env ds de event = false) := by
  unfold copilotStep copilotInDayB
  simp only []
  rcases hts : copilotExtractTimestampMs env event with _ | ts
  · simp [copilotApplyMeta_dayE, copilotApplyMeta_dayL]
  · by_cases hin : ds ≤ ts ∧ ts ≤ de
    · simp only [if_pos hin]
      constructor
      · constructor
        · intro h
          rcases hd : oObj (jGet event (s2l "data")) with _ | d
        
          all_goals (rw [hd] at h
                     rw [(copilotDispatch_day env _ ts event _).1] at h
                     simp [copilotSpan] at h)
        · intro ⟨_, hfalse⟩
          simp [hin] at hfalse
      · constructor
        · intro h
          rcases hd : oObj (jGet event (s2l "data")) with _ | d
          all_goals (rw [hd] at h
                     rw [(copilotDispatch_day env _ ts event _).2] at h
                     simp [copilotSpan] at h)
        · intro ⟨_, hfalse⟩
          simp [hin] at hfalse
    · simp only [if_neg hin]
      rw [copilotApplyMeta_dayE, copilotApplyMeta_dayL]
      simp [hin]

theorem copilotFold_day_none (env : JsEnv) (ds de : Int) : ∀ (events : List Json) (st : CopilotAcc),
    ((events.foldl (copilotStep env ds de) st).dayEarliest = none ↔
      st.dayEarliest = none ∧ ∀ ev ∈ events, copilotInDayB env ds de ev = false) ∧
    ((events.foldl (copilotStep env ds de) st).dayLatest = none ↔
      st.dayLatest = none ∧ ∀ ev ∈ events, copilotInDayB env ds de ev = false) := by
  intro events
  induction events with
  | nil => intro st; simp
  | cons ev evs ih =>
    intro st
    simp only [List.foldl_cons]
    constructor
    · rw [(ih (copilotStep env ds de st ev)).1, (copilotStep_day env ds de st ev).1]
      simp only [List.mem_cons]
      constructor
      · rintro ⟨⟨h1, h2⟩, h3⟩
        exact ⟨h1, by rintro e (rfl | hm); exacts [h2, h3 e hm]⟩
      · rintro ⟨h1, h2⟩
        exact ⟨⟨h1, h2 ev (Or.inl rfl)⟩, fun e hm => h2 e (Or.inr hm)⟩
    · rw [(ih (copilotStep env ds de st ev)).2, (copilotStep_day env ds de st ev).2]
      simp only [List.mem_cons]
      constructor
      · rintro ⟨⟨h1, h2⟩, h3⟩
        exact ⟨h1, by rintro e (rfl | hm); exacts [h2, h3 e hm]⟩
      · rintro ⟨h1, h2⟩
        exact ⟨⟨h1, h2 ev (Or.inl rfl)⟩, fun e hm => h2 e (Or.inr hm)⟩

theorem parseCopilot_none_iff (env : JsEnv) (ds de : Int) (sid : Str) (ws : WorkspaceMetadata)
    (events : List Json) :
    parseCopilotSessionFile env ds de sid ws events = none ↔
      ∀ ev ∈ events, copilotInDayB env ds de ev = false := by
  have hrunE : (copilotRun env ds de sid ws events).dayEarliest = none ↔
      ∀ ev ∈ events, copilotInDayB env ds de ev = false := by
    have h := (copilotFold_day_none env ds de events (copilotInit sid ws)).1
    simpa [copilotRun, copilotInit] using h
  have hrunL : (copilotRun env ds de sid ws events).dayLatest = none ↔
      ∀ ev ∈ events, copilotInDayB env ds de ev = false := by
    have h := (copilotFold_day_none env ds de events (copilotInit sid ws)).2
    simpa [copilotRun, copilotInit] using h
  simp only [parseCopilotSessionFile]
  rcases he : (copilotRun env ds de sid ws events).dayEarliest with _ | e <;>
    rcases hl : (copilotRun env ds de sid ws events).dayLatest with _ | l
  · simpa using hrunE.mp he
  · simpa using hrunE.mp he
  · simpa using hrunL.mp hl
  · simp only []
    constructor
    · intro h
      exact absurd h (by simp)
    · intro h
      have hnone := hrunE.mpr h
      rw [he] at hnone
      exact absurd hnone (by simp)

/-- C3 counterexample: a Codex unit whose only record is an in-day
token-usage report collects no activity timestamp, yet the extractor
returns a Session for it (the claim says the unit must produce nothing). -/
theorem no_inday_activity_discard_cx :
    (codexRun testEnv 0 86399999 (s2l "f") [exTokenLine]).activityTimestamps = [] ∧
    parseCodexSessionFile testEnv 0 86399999 (s2l "f") [exTokenLine] ≠ none :=
  ⟨by decide, by decide⟩

/-- C3 (amended): for both extractors, a unit is discarded exactly when no
record in it carries a timestamp inside the requested day window — any
timestamped in-day record (also a token-usage report or a metadata record)
is enough to produce a Session, even with no in-day activity timestamp. -/
theorem no_inday_record_no_session :
    (∀ env ds de base lines, parseCodexSessionFile env ds de base lines = none ↔
        ∀ line ∈ lines, codexInDayB env ds de line = false) ∧
    (∀ env ds de sid ws events, parseCopilotSessionFile env ds de sid ws events = none ↔
        ∀ ev ∈ events, copilotInDayB env ds de ev = false) :=
  ⟨parseCodex_none_iff, parseCopilot_none_iff⟩

/-- C6 counterexample: a Copilot record timestamped before the day window
still contributes its `model` field to the session's `models` aggregate
(the claim says model records contribute only inside the window). -/
theorem model_collection_out_of_window_cx :
    copilotInDayB testEnv 0 86399999 exModelEvent = false ∧
    Option.map Session.models
        (parseCopilotSessionFile testEnv 0 86399999 (s2l "u") exWorkspace
          [exModelEvent, exUserEvent]) = some [s2l "m1"] :=
  ⟨by decide, by decide⟩

/-- C6 (amended): for an out-of-window (or untimestamped) record, the Codex
extractor applies exactly the session-metadata block — identity fields may
change, every aggregate is untouched — while the Copilot extractor applies
its session-metadata block and, in addition, unconditionally harvests model
names from the record; all other Copilot aggregation is window-gated. -/
theorem metadata_window_handling :
    (∀ env ds de st line, codexInDayB env ds de line = false →
        codexStep env ds de st line = codexApplyMeta st line) ∧
    (∀ st line,
        (codexApplyMeta st line).title = st.title ∧
        (codexApplyMeta st line).userMessageCount = st.userMessageCount ∧
        (codexApplyMeta st line).assistantMessageCount = st.assistantMessageCount ∧
        (codexApplyMeta st line).models = st.models ∧
        (codexApplyMeta st line).tokens = st.tokens ∧
        (codexApplyMeta st line).filesTouched = st.filesTouched ∧
        (codexApplyMeta st line).toolCallSummaries = st.toolCallSummaries ∧
        (codexApplyMeta st line).digestParts = st.digestParts ∧
        (codexApplyMeta st line).activityTimestamps = st.activityTimestamps ∧
        (codexApplyMeta st line).sawStructuredMessages = st.sawStructuredMessages ∧
        (codexApplyMeta st line).dayEarliest = st.dayEarliest ∧
        (codexApplyMeta st line).dayLatest = st.dayLatest) ∧
    (∀ env ds de st ev, copilotInDayB env ds de ev = false →
        copilotStep env ds de st ev =
          { copilotApplyMeta st ev with
              models := copilotCollectModels ((jGetStr ev (s2l "type")).getD [])
                (oObj (jGet ev (s2l "data"))) (copilotApplyMeta st ev).models }) ∧
    (∀ st ev,
        (copilotApplyMeta st ev).userMessageCount = st.userMessageCount ∧
        (copilotApplyMeta st ev).assistantMessageCount = st.assistantMessageCount ∧
        (copilotApplyMeta st ev).tokens = st.tokens ∧
        (copilotApplyMeta st ev).filesTouched = st.filesTouched ∧
        (copilotApplyMeta st ev).toolCallSummaries = st.toolCallSummaries ∧
        (copilotApplyMeta st ev).digestParts = st.digestParts ∧
        (copilotApplyMeta st ev).activityTimestamps = st.activityTimestamps ∧
        (copilotApplyMeta st ev).dayEarliest = st.dayEarliest ∧
        (copilotApplyMeta st ev).dayLatest = st.dayLatest) := by
  refine ⟨?_, codexApplyMeta_agg, ?_, ?_⟩
  · intro env ds de st line h
    unfold codexInDayB at h
    unfold codexStep
    rcases hts : codexExtractTimestampMs env line with _ | ts
    · simp only [hts]
    · rw [hts] at h
      simp only [decide_eq_false_iff_not] at h
      simp only [hts, if_neg h]
  · intro env ds de st ev h
    unfold copilotInDayB at h
    unfold copilotStep
    rcases hts : copilotExtractTimestampMs env ev with _ | ts
    · simp only [hts]
    · rw [hts] at h
      simp only [decide_eq_false_iff_not] at h
      simp only [hts, if_neg h]
  · intro st ev
    have h := copilotApplyMeta_agg st ev
    exact ⟨h.1, h.2.1, h.2.2.2.1, h.2.2.2.2.1, h.2.2.2.2.2.1, h.2.2.2.2.2.2.1,
      h.2.2.2.2.2.2.2.1, h.2.2.2.2.2.2.2.2.1, h.2.2.2.2.2.2.2.2.2⟩

/-- C6 witness: an out-of-window Codex record reduces the whole step to the
metadata block on a concrete state. -/
theorem metadata_window_handling_witness :
    codexStep testEnv 0 86399999 (codexInit (s2l "f")) exModelEvent =
      codexApplyMeta (codexInit (s2l "f")) exModelEvent :=
  metadata_window_handling.1 testEnv 0 86399999 (codexInit (s2l "f")) exModelEvent (by decide)

/- ------------------------------------------------------------------ -/
/- span invariant preservation                                        -/
/- ------------------------------------------------------------------ -/

theorem codexApplyMeta_spanInv (ds de : Int) (st : CodexAcc) (line : Json)
    (h : CodexSpanInv ds de st) : CodexSpanInv ds de (codexApplyMeta st line) := by
  unfold CodexSpanInv at h ⊢
  rw [codexApplyMeta_dayE, codexApplyMeta_dayL,
    (codexApplyMeta_agg st line).2.2.2.2.2.2.2.2.1]
  exact h

theorem codexInDay_spanInv (env : JsEnv) (ds de : Int) (st1 : CodexAcc) (ts : Int) (line : Json)
    (h : CodexSpanInv ds de st1) (hts1 : ds ≤ ts) (hts2 : ts ≤ de) :
    CodexSpanInv ds de (codexDispatch env (codexSpan st1 ts) ts line) := by
  have hday := codexDispatch_day env (codexSpan st1 ts) ts line
  have hact := codexDispatch_activity env (codexSpan st1 ts) ts line
  obtain ⟨sid, pp, pn, ti, uc, ac, mo, tk, ft, tc, dp, act, saw, dayE, dayL⟩ := st1
  unfold CodexSpanInv at h ⊢
  rw [hday.1, hday.2]
  rcases dayE with _ | e <;> rcases dayL with _ | l <;> simp only [codexSpan] at hact ⊢
  · have hae : act = [] := h
    refine ⟨hts1, le_refl ts, hts2, ?_⟩
    rcases hact with ha | ha <;> rw [ha, hae] <;> intro t ht <;> simp at ht
    omega
  · exact h.elim
  · exact h.elim
  · obtain ⟨he1, he2, he3, he4⟩ := h
    refine ⟨le_min he1 hts1, ?_, ?_, ?_⟩
    · have := min_le_left e ts
      have := le_max_left l ts
      omega
    · have := max_le he3 hts2
      omega
    · rcases hact with ha | ha <;> rw [ha] <;> intro t ht
      · have hb := he4 t ht
        have := min_le_left e ts
        have := le_max_left l ts
        constructor <;> omega
      · rcases List.mem_append.mp ht with hm | hm
        · have hb := he4 t hm
          have := min_le_left e ts
          have := le_max_left l ts
          constructor <;> omega
        · simp at hm
          have := min_le_right e ts
          have := le_max_right l ts
          constructor <;> omega

theorem codexStep_spanInv (env : JsEnv) (ds de : Int) (st : CodexAcc) (line : Json)
    (h : CodexSpanInv ds de st) : CodexSpanInv ds de (codexStep env ds de st line) := by
  unfold codexStep
  rcases hts : codexExtractTimestampMs env line with _ | ts
  · simp only [hts]
    exact codexApplyMeta_spanInv ds de st line h
  · simp only [hts]
    by_cases hin : ds ≤ ts ∧ ts ≤ de
    · rw [if_pos hin]
      exact codexInDay_spanInv env ds de _ ts line (codexApplyMeta_spanInv ds de st line h)
        hin.1 hin.2
    · rw [if_neg hin]
      exact codexApplyMeta_spanInv ds de st line h

theorem codexRun_spanInv (env : JsEnv) (ds de : Int) (base : Str) (lines : List Json) :
    CodexSpanInv ds de (codexRun env ds de base lines) := by
  unfold codexRun
  have hinit : CodexSpanInv ds de (codexInit base) := by
    unfold CodexSpanInv codexInit
    simp
  generalize codexInit base = st at hinit ⊢
  induction lines generalizing st with
  | nil => exact hinit
  | cons l ls ih =>
    simp only [List.foldl_cons]
    exact ih _ (codexStep_spanInv env ds de st l hinit)

theorem copilotApplyMeta_spanInv (ds de : Int) (st : CopilotAcc) (event : Json)
    (h : CopilotSpanInv ds de st) : CopilotSpanInv ds de (copilotApplyMeta st event) := by
  unfold CopilotSpanInv at h ⊢
  rw [copilotApplyMeta_dayE, copilotApplyMeta_dayL,
    (copilotApplyMeta_agg st event).2.2.2.2.2.2.2.1]
  exact h

theorem copilotSpan_facts (ds de : Int) (st2 : CopilotAcc) (ts : Int)
    (h : CopilotSpanInv ds de st2) (hts1 : ds ≤ ts) (hts2 : ts ≤ de) :
    ∃ e1 l1, (copilotSpan st2 ts).dayEarliest = some e1 ∧
      (copilotSpan st2 ts).dayLatest = some l1 ∧
      CopilotSpanInv ds de (copilotSpan st2 ts) ∧ e1 ≤ ts ∧ ts ≤ l1 := by
  obtain ⟨sid, pp, pn, ti, uc, ac, mo, tk, ft, tc, dp, act, dayE, dayL⟩ := st2
  unfold CopilotSpanInv at h ⊢
  rcases dayE with _ | e <;> rcases dayL with _ | l <;> simp only [copilotSpan]
  · refine ⟨ts, ts, rfl, rfl, ⟨hts1, le_refl ts, hts2, ?_⟩, le_refl ts, le_refl ts⟩
    rw [show act = [] from h]
    intro t ht
    simp at ht
  · exact h.elim
  · exact h.elim
  · obtain ⟨h1, h2, h3, h4⟩ := h
    refine ⟨min e ts, max l ts, rfl, rfl,
      ⟨le_min h1 hts1, ?_, ?_, ?_⟩, min_le_right e ts, le_max_right l ts⟩
    · have := min_le_left e ts
      have := le_max_left l ts
      omega
    · have := max_le h3 hts2
      omega
    · intro t ht
      have hb := h4 t ht
      have := min_le_left e ts
      have := le_max_left l ts
      constructor <;> omega

theorem copilotDispatch_spanInv (env : JsEnv) (ds de : Int) (st4 : CopilotAcc) (ts : Int)
    (event : Json) (data : Option Obj) (e1 l1 : Int)
    (hE : st4.dayEarliest = some e1) (hL : st4.dayLatest = some l1)
    (h : CopilotSpanInv ds de st4) (het : e1 ≤ ts) (htl : ts ≤ l1) :
    CopilotSpanInv ds de (copilotDispatch env st4 ts event data) := by
  have hday := copilotDispatch_day env st4 ts event data
  have hact := copilotDispatch_activity env st4 ts event data
  unfold CopilotSpanInv at h ⊢
  rw [hday.1, hday.2, hE, hL]
  rw [hE, hL] at h
  obtain ⟨h1, h2, h3, h4⟩ := h
  refine ⟨h1, h2, h3, ?_⟩
  rcases hact with ha | ha <;> rw [ha]
  · exact h4
  · intro t ht
    rcases List.mem_append.mp ht with hm | hm
    · exact h4 t hm
    · simp at hm
      constructor <;> omega

theorem copilotStep_spanInv (env : JsEnv) (ds de : Int) (st : CopilotAcc) (event : Json)
    (h : CopilotSpanInv ds de st) : CopilotSpanInv ds de (copilotStep env ds de st event) := by
  have hst2 : CopilotSpanInv ds de
      { copilotApplyMeta st event with
          models := copilotCollectModels ((jGetStr event (s2l "type")).getD [])
            (oObj (jGet event (s2l "data"))) (copilotApplyMeta st event).models } :=
    copilotApplyMeta_spanInv ds de st event h
  unfold copilotStep
  simp only []
  rcases hts : copilotExtractTimestampMs env event with _ | ts
  · exact hst2
  · by_cases hin : ds ≤ ts ∧ ts ≤ de
    · simp only [if_pos hin]
      obtain ⟨e1, l1, hE, hL, hinv, het, htl⟩ :=
        copilotSpan_facts ds de _ ts hst2 hin.1 hin.2
      rcases oObj (jGet event (s2l "data")) with _ | d
      · exact copilotDispatch_spanInv env ds de _ ts event none e1 l1 hE hL hinv het htl
      · exact copilotDispatch_spanInv env ds de _ ts event (some d) e1 l1 hE hL hinv het htl
    · simp only [if_neg hin]
      exact hst2

theorem copilotRun_spanInv (env : JsEnv) (ds de : Int) (sid : Str) (ws : WorkspaceMetadata)
    (events : List Json) : CopilotSpanInv ds de (copilotRun env ds de sid ws events) := by
  unfold copilotRun
  have hinit : CopilotSpanInv ds de (copilotInit sid ws) := by
    unfold CopilotSpanInv copilotInit
    simp
  generalize copilotInit sid ws = st at hinit ⊢
  induction events generalizing st with
  | nil => exact hinit
  | cons ev evs ih =>
    simp only [List.foldl_cons]
    exact ih _ (copilotStep_spanInv env ds de st ev hinit)

theorem codexAssemble_span (env : JsEnv) (ds de : Int) (st : CodexAcc) (e l : Int) :
    (codexAssemble env ds de st e l).startedAt = max ds e ∧
    (codexAssemble env ds de st e l).endedAt = min de l := ⟨rfl, rfl⟩

theorem copilotAssemble_span (env : JsEnv) (ds de : Int) (st : CopilotAcc) (e l : Int) :
    (copilotAssemble env ds de st e l).startedAt = max ds e ∧
    (copilotAssemble env ds de st e l).endedAt = min de l := ⟨rfl, rfl⟩

/-- C10: for every Session either extractor returns, the capped-gap
duration is non-negative and never exceeds the clipped session time span
`endedAt - startedAt`: every collected activity timestamp lies inside the
observed in-day span, and summing per-gap-capped positive gaps of the
sorted timestamps is at most their maximum minus their minimum. -/
theorem session_duration_bounds :
    (∀ env ds de base lines s, parseCodexSessionFile env ds de base lines = some s →
        0 ≤ s.durationMs ∧ s.durationMs ≤ s.endedAt - s.startedAt) ∧
    (∀ env ds de sid ws events s, parseCopilotSessionFile env ds de sid ws events = some s →
        0 ≤ s.durationMs ∧ s.durationMs ≤ s.endedAt - s.startedAt) := by
  constructor
  · intro env ds de base lines s h
    rcases parseCodex_some env ds de base lines s h with ⟨e, l, hE, hL, rfl⟩
    have hinv := codexRun_spanInv env ds de base lines
    unfold CodexSpanInv at hinv
    rw [hE, hL] at hinv
    obtain ⟨h1, h2, h3, h4⟩ := hinv
    rw [codexAssemble_durationMs, (codexAssemble_span env ds de _ e l).1,
      (codexAssemble_span env ds de _ e l).2]
    have hmax : max ds e = e := max_eq_right h1
    have hmin : min de l = l := min_eq_right h3
    rw [hmax, hmin]
    refine ⟨sessionDurationMs_nonneg _, ?_⟩
    exact sessionDurationMs_le_span _ e l h2 h4
  · intro env ds de sid ws events s h
    rcases parseCopilot_some env ds de sid ws events s h with ⟨e, l, hE, hL, rfl⟩
    have hinv := copilotRun_spanInv env ds de sid ws events
    unfold CopilotSpanInv at hinv
    rw [hE, hL] at hinv
    obtain ⟨h1, h2, h3, h4⟩ := hinv
    rw [copilotAssemble_durationMs, (copilotAssemble_span env ds de _ e l).1,
      (copilotAssemble_span env ds de _ e l).2]
    have hmax : max ds e = e := max_eq_right h1
    have hmin : min de l = l := min_eq_right h3
    rw [hmax, hmin]
    refine ⟨sessionDurationMs_nonneg _, ?_⟩
    exact sessionDurationMs_le_span _ e l h2 h4

/-- C10 witness: the bound instantiated on the concrete one-message Codex
unit. -/
theorem session_duration_bounds_witness :
    ∃ s, parseCodexSessionFile testEnv 0 86399999 (s2l "f") [exCodexUserLine] = some s ∧
      0 ≤ s.durationMs ∧ s.durationMs ≤ s.endedAt - s.startedAt := by
  rcases hp : parseCodexSessionFile testEnv 0 86399999 (s2l "f") [exCodexUserLine] with _ | s
  · exact absurd hp (by decide)
  · exact ⟨s, rfl, session_duration_bounds.1 testEnv 0 86399999 (s2l "f") [exCodexUserLine] s hp⟩

theorem jLookup_nonneg : ∀ (fields : Obj) (key : Str) (j : Json),
    nonnegNumsFields fields = true → jLookup fields key = some j → nonnegNums j = true := by
  intro fields
  induction fields with
  | nil => intro key j _ h; exact absurd h (by simp [jLookup])
  | cons p rest ih =>
    intro key j hnn hl
    obtain ⟨k, v⟩ := p
    simp only [nonnegNumsFields, Bool.and_eq_true] at hnn
    simp only [jLookup] at hl
    split at hl
    · injection hl with h
      exact h ▸ hnn.1
    · exact ih key j hnn.2 hl

theorem oObj_jLookup_nonneg (fields : Obj) (key : Str) (o : Obj)
    (h : nonnegNumsFields fields = true) (ho : oObj (jLookup fields key) = some o) :
    nonnegNumsFields o = true := by
  rcases hl : jLookup fields key with _ | j
  · rw [hl] at ho; exact absurd ho (by simp [oObj])
  · rw [hl] at ho
    have hj := jLookup_nonneg fields key j h hl
    rcases j with _ | b | n | s2 | a | ofs <;> simp [oObj] at ho
    exact ho ▸ (by simpa [nonnegNums] using hj)

theorem numberOrZero_nonneg (u : Obj) (key : Str) (h : nonnegNumsFields u = true) :
    0 ≤ numberOrZero (jLookup u key) := by
  rcases hl : jLookup u key with _ | j
  · simp [numberOrZero]
  · have hj := jLookup_nonneg u key j h hl
    rcases j with _ | b | n | s2 | a | o <;> simp [numberOrZero]
    simpa [nonnegNums] using hj

theorem codexAddTokenUsage_nonneg (tokens : TokenUsage) (payload : Obj)
    (hp : nonnegNumsFields payload = true) (ht : TokensNonneg tokens) :
    TokensNonneg (codexAddTokenUsage tokens payload) := by
  unfold codexAddTokenUsage
  simp only []
  split
  · exact ht
  · rename_i u hu
    have hu' : nonnegNumsFields u = true := by
      rcases hinfo : oObj (jLookup payload (s2l "info")) with _ | i <;>
        rw [hinfo] at hu <;> simp only [] at hu
      · exact oObj_jLookup_nonneg payload _ u hp hu
      · have hi := oObj_jLookup_nonneg payload _ i hp hinfo
        rcases husageA : oObj (jLookup i (s2l "last_token_usage")) with _ | u2 <;>
          rw [husageA] at hu <;> simp at hu
        · exact oObj_jLookup_nonneg payload _ u hp hu
        · exact hu ▸ oObj_jLookup_nonneg i _ u2 hi husageA
    exact ⟨add_nonneg ht.1 (numberOrZero_nonneg u _ hu'),
      add_nonneg ht.2.1 (numberOrZero_nonneg u _ hu'),
      add_nonneg ht.2.2.1 (numberOrZero_nonneg u _ hu'),
      add_nonneg ht.2.2.2.1 (numberOrZero_nonneg u _ hu'),
      add_nonneg ht.2.2.2.2 (numberOrZero_nonneg u _ hu')⟩

theorem codexStep_tokens (env : JsEnv) (ds de : Int) (st : CodexAcc) (line : Json) :
    (codexStep env ds de st line).tokens = st.tokens ∨
    ∃ payload, oObj (jGet line (s2l "payload")) = some payload ∧
      (codexStep env ds de st line).tokens = codexAddTokenUsage st.tokens payload := by
  unfold codexStep
  simp only []
  have hmeta := (codexApplyMeta_agg st line).2.2.2.2.1
  rcases hts : codexExtractTimestampMs env line with _ | ts
  · exact Or.inl hmeta
  · by_cases hin : ds ≤ ts ∧ ts ≤ de
    · simp only [if_pos hin]
      rcases codexDispatch_tokens env (codexSpan (codexApplyMeta st line) ts) ts line with
        h | ⟨p, hp, h⟩
      · exact Or.inl (h.trans hmeta)
      · refine Or.inr ⟨p, hp, ?_⟩
        rw [h]
        exact congrArg (fun tk => codexAddTokenUsage tk p) hmeta
    · simp only [if_neg hin]
      exact Or.inl hmeta

theorem codexFold_tokens_nonneg (env : JsEnv) (ds de : Int) :
    ∀ (lines : List Json) (st : CodexAcc),
      (∀ line ∈ lines, nonnegNums line = true) → TokensNonneg st.tokens →
      TokensNonneg ((lines.foldl (codexStep env ds de) st).tokens) := by
  intro lines
  induction lines with
  | nil => intro st _ ht; exact ht
  | cons line rest ih =>
    intro st hln ht
    simp only [List.foldl]
    refine ih _ (fun l hl => hln l (List.mem_cons_of_mem line hl)) ?_
    rcases codexStep_tokens env ds de st line with h | ⟨p, hp, h⟩
    · rw [h]; exact ht
    · rw [h]
      have hline := hln line (List.mem_cons_self line rest)
      have hpnn : nonnegNumsFields p = true := by
        rcases line with _ | b | n | s2 | a | fields
        · exact absurd hp (by simp [jGet, oObj])
        · exact absurd hp (by simp [jGet, oObj])
        · exact absurd hp (by simp [jGet, oObj])
        · exact absurd hp (by simp [jGet, oObj])
        · exact absurd hp (by simp [jGet, oObj])
        · simp only [jGet] at hp
          exact oObj_jLookup_nonneg fields (s2l "payload") p
            (by simpa [nonnegNums] using hline) hp
      exact codexAddTokenUsage_nonneg st.tokens p hpnn ht

theorem numberOrNull_nonneg (env : JsEnv)
    (penv : ∀ s n, env.parseNumber s = some n → 0 ≤ n)
    (record : Obj) (key : Str) (n : Int)
    (hr : nonnegNumsFields record = true)
    (h : numberOrNull env (jLookup record key) = some n) : 0 ≤ n := by
  rcases hl : jLookup record key with _ | j
  · rw [hl] at h
    exact absurd h (by simp [numberOrNull])
  · rw [hl] at h
    have hj := jLookup_nonneg record key j hr hl
    rcases j with _ | b | m | s2 | a | o <;> simp only [numberOrNull] at h
    · exact absurd h (by simp)
    · exact absurd h (by simp)
    · injection h with h
      exact h ▸ (by simpa [nonnegNums] using hj)
    · split at h
      · exact absurd h (by simp)
      · exact penv s2 n h
    · exact absurd h (by simp)
    · exact absurd h (by simp)

theorem firstNumber_nonneg (env : JsEnv)
    (penv : ∀ s n, env.parseNumber s = some n → 0 ≤ n)
    (record : Obj) (hr : nonnegNumsFields record = true) :
    ∀ (keys : List Str) (n : Int), firstNumber env record keys = some n → 0 ≤ n := by
  intro keys
  induction keys with
  | nil => intro n h; exact absurd h (by simp [firstNumber])
  | cons k rest ih =>
    intro n h
    simp only [firstNumber] at h
    split at h
    · rename_i m hm
      injection h with h
      exact h ▸ numberOrNull_nonneg env penv record k m hr hm
    · exact ih n h

theorem applyUsageFromRecord_nonneg (env : JsEnv)
    (penv : ∀ s n, env.parseNumber s = some n → 0 ≤ n)
    (record : Obj) (hr : nonnegNumsFields record = true)
    (tokens : TokenUsage) (ht : TokensNonneg tokens) :
    TokensNonneg (applyUsageFromRecord env record tokens).2 := by
  have hget : ∀ keys : List Str, 0 ≤ (firstNumber env record keys).getD 0 := by
    intro keys
    rcases hf : firstNumber env record keys with _ | n
    · simp
    · simpa using firstNumber_nonneg env penv record hr keys n hf
  unfold applyUsageFromRecord
  simp only []
  split
  · exact ht
  · exact ⟨add_nonneg ht.1 (hget _), add_nonneg ht.2.1 (hget _),
      add_nonneg ht.2.2.1 (hget _), add_nonneg ht.2.2.2.1 (hget _),
      add_nonneg ht.2.2.2.2 (hget _)⟩

theorem visitUsage_succ_obj (env : JsEnv) (m : Nat) (record : Obj) (tokens : TokenUsage) :
    visitUsage env (m + 1) (.obj record) tokens =
      match applyUsageFromRecord env record tokens with
      | (true, tokens1) => tokens1
      | (false, _) =>
        [s2l "usage", s2l "tokenUsage", s2l "tokens", s2l "metrics", s2l "result"].foldl
          (fun tk key =>
            match jLookup record key with
            | some v => visitUsage env m v tk
            | none => tk) tokens := rfl

theorem visitUsage_nonneg (env : JsEnv)
    (penv : ∀ s n, env.parseNumber s = some n → 0 ≤ n) :
    ∀ (fuel : Nat) (value : Json) (tokens : TokenUsage),
      nonnegNums value = true → TokensNonneg tokens →
      TokensNonneg (visitUsage env fuel value tokens) := by
  intro fuel
  induction fuel with
  | zero => intro value tokens _ ht; exact ht
  | succ m ih =>
    intro value tokens hv ht
    rcases value with _ | b | n | s2 | items | record
    · exact ht
    · exact ht
    · exact ht
    · exact ht
    · exact ht
    · have hrec : nonnegNumsFields record = true := by simpa [nonnegNums] using hv
      have hfold : ∀ (keys : List Str) (tk : TokenUsage), TokensNonneg tk →
          TokensNonneg (keys.foldl (fun tk key =>
            match jLookup record key with
            | some v => visitUsage env m v tk
            | none => tk) tk) := by
        intro keys
        induction keys with
        | nil => intro tk h; exact h
        | cons k rest ihk =>
          intro tk h
          simp only [List.foldl]
          rcases hl : jLookup record k with _ | v
          · exact ihk tk h
          · exact ihk _ (ih v tk (jLookup_nonneg record k v hrec hl) h)
      rw [visitUsage_succ_obj]
      rcases happ : applyUsageFromRecord env record tokens with ⟨b, t1⟩
      cases b
      · exact hfold _ tokens ht
      · have h := applyUsageFromRecord_nonneg env penv record hrec tokens ht
        rw [happ] at h
        exact h

theorem copilotStep_tokens (env : JsEnv) (ds de : Int) (st : CopilotAcc) (event : Json) :
    (copilotStep env ds de st event).tokens = st.tokens ∨
    ∃ d, oObj (jGet event (s2l "data")) = some d ∧
      (copilotStep env ds de st event).tokens = visitUsageRecord env (.obj d) st.tokens := by
  unfold copilotStep
  simp only []
  have hmeta := (copilotApplyMeta_agg st event).2.2.2.1
  rcases hts : copilotExtractTimestampMs env event with _ | ts
  · exact Or.inl hmeta
  · by_cases hin : ds ≤ ts ∧ ts ≤ de
    · simp only [if_pos hin]
      rcases hd : oObj (jGet event (s2l "data")) with _ | d
      · left
        rw [copilotDispatch_tokens]
        exact hmeta
      · right
        refine ⟨d, rfl, ?_⟩
        rw [copilotDispatch_tokens]
        exact congrArg (fun tk => visitUsageRecord env (.obj d) tk) hmeta
    · simp only [if_neg hin]
      exact Or.inl hmeta

theorem copilotFold_tokens_nonneg (env : JsEnv) (ds de : Int)
    (penv : ∀ s n, env.parseNumber s = some n → 0 ≤ n) :
    ∀ (events : List Json) (st : CopilotAcc),
      (∀ ev ∈ events, nonnegNums ev = true) → TokensNonneg st.tokens →
      TokensNonneg ((events.foldl (copilotStep env ds de) st).tokens) := by
  intro events
  induction events with
  | nil => intro st _ ht; exact ht
  | cons ev rest ih =>
    intro st hev ht
    simp only [List.foldl]
    refine ih _ (fun e he => hev e (List.mem_cons_of_mem ev he)) ?_
    rcases copilotStep_tokens env ds de st ev with h | ⟨d, hd, h⟩
    · rw [h]; exact ht
    · rw [h]
      have hline := hev ev (List.mem_cons_self ev rest)
      have hdnn : nonnegNumsFields d = true := by
        rcases ev with _ | b | n | s2 | a | fields
        · exact absurd hd (by simp [jGet, oObj])
        · exact absurd hd (by simp [jGet, oObj])
        · exact absurd hd (by simp [jGet, oObj])
        · exact absurd hd (by simp [jGet, oObj])
        · exact absurd hd (by simp [jGet, oObj])
        · simp only [jGet] at hd
          exact oObj_jLookup_nonneg fields (s2l "data") d
            (by simpa [nonnegNums] using hline) hd
      exact visitUsage_nonneg env penv 4 (.obj d) st.tokens
        (by simpa [nonnegNums] using hdnn) ht

theorem codexAssemble_tokens (env : JsEnv) (ds de : Int) (st : CodexAcc) (e l : Int) :
    (codexAssemble env ds de st e l).tokens.input = st.tokens.input ∧
    (codexAssemble env ds de st e l).tokens.output = st.tokens.output ∧
    (codexAssemble env ds de st e l).tokens.reasoning = st.tokens.reasoning ∧
    (codexAssemble env ds de st e l).tokens.cacheRead = st.tokens.cacheRead ∧
    (codexAssemble env ds de st e l).tokens.cacheWrite = st.tokens.cacheWrite ∧
    (codexAssemble env ds de st e l).tokens.total = st.tokens.input + st.tokens.output +
      st.tokens.reasoning + st.tokens.cacheRead + st.tokens.cacheWrite :=
  ⟨rfl, rfl, rfl, rfl, rfl, rfl⟩

theorem copilotAssemble_tokens (env : JsEnv) (ds de : Int) (st : CopilotAcc) (e l : Int) :
    (copilotAssemble env ds de st e l).tokens.input = st.tokens.input ∧
    (copilotAssemble env ds de st e l).tokens.output = st.tokens.output ∧
    (copilotAssemble env ds de st e l).tokens.reasoning = st.tokens.reasoning ∧
    (copilotAssemble env ds de st e l).tokens.cacheRead = st.tokens.cacheRead ∧
    (copilotAssemble env ds de st e l).tokens.cacheWrite = st.tokens.cacheWrite ∧
    (copilotAssemble env ds de st e l).tokens.total = st.tokens.input + st.tokens.output +
      st.tokens.reasoning + st.tokens.cacheRead + st.tokens.cacheWrite :=
  ⟨rfl, rfl, rfl, rfl, rfl, rfl⟩

/-- C7 (amended): for every Session either extractor returns, the assembled
`total` equals `input + output + reasoning + cacheRead + cacheWrite`; the
non-negativity half of the claimed invariant does NOT hold for arbitrary
numeric values in the source records (see the counterexample), but it does
hold whenever every numeric leaf of the ingested records is non-negative
(and, for the Copilot extractor, the numeric-string parse only returns
non-negative values), since each bucket is then a sum of non-negative
contributions. -/
theorem token_usage_invariant :
    (∀ env ds de base lines s, parseCodexSessionFile env ds de base lines = some s →
        s.tokens.total = s.tokens.input + s.tokens.output + s.tokens.reasoning +
          s.tokens.cacheRead + s.tokens.cacheWrite ∧
        ((∀ line ∈ lines, nonnegNums line = true) →
          TokensNonneg s.tokens ∧ 0 ≤ s.tokens.total)) ∧
    (∀ env ds de sid ws events s, parseCopilotSessionFile env ds de sid ws events = some s →
        s.tokens.total = s.tokens.input + s.tokens.output + s.tokens.reasoning +
          s.tokens.cacheRead + s.tokens.cacheWrite ∧
        ((∀ s2 n, env.parseNumber s2 = some n → 0 ≤ n) →
         (∀ ev ∈ events, nonnegNums ev = true) →
          TokensNonneg s.tokens ∧ 0 ≤ s.tokens.total)) := by
  constructor
  · intro env ds de base lines s h
    rcases parseCodex_some env ds de base lines s h with ⟨e, l, hE, hL, rfl⟩
    refine ⟨rfl, ?_⟩
    intro hnn
    have hinit : TokensNonneg (codexInit base).tokens :=
      ⟨le_refl 0, le_refl 0, le_refl 0, le_refl 0, le_refl 0⟩
    have hrun : TokensNonneg (codexRun env ds de base lines).tokens :=
      codexFold_tokens_nonneg env ds de lines (codexInit base) hnn hinit
    obtain ⟨h1, h2, h3, h4, h5⟩ := hrun
    exact ⟨⟨h1, h2, h3, h4, h5⟩,
      add_nonneg (add_nonneg (add_nonneg (add_nonneg h1 h2) h3) h4) h5⟩
  · intro env ds de sid ws events s h
    rcases parseCopilot_some env ds de sid ws events s h with ⟨e, l, hE, hL, rfl⟩
    refine ⟨rfl, ?_⟩
    intro penv hnn
    have hinit : TokensNonneg (copilotInit sid ws).tokens :=
      ⟨le_refl 0, le_refl 0, le_refl 0, le_refl 0, le_refl 0⟩
    have hrun : TokensNonneg (copilotRun env ds de sid ws events).tokens :=
      copilotFold_tokens_nonneg env ds de penv events (copilotInit sid ws) hnn hinit
    obtain ⟨h1, h2, h3, h4, h5⟩ := hrun
    exact ⟨⟨h1, h2, h3, h4, h5⟩,
      add_nonneg (add_nonneg (add_nonneg (add_nonneg h1 h2) h3) h4) h5⟩

/-- C7 counterexample: a single in-day `token_count` record carrying
`input_tokens = -5` yields a Session whose `tokens.input` and
`tokens.total` are both `-5` — `numberOrZero` passes negative numbers
through unchecked, so the claimed unconditional non-negativity of the six
fields is false. -/
theorem token_usage_nonneg_cx :
    Option.map (fun s => (s.tokens.input, s.tokens.total))
      (parseCodexSessionFile testEnv 0 86399999 (s2l "f") [exNegTokenLine]) =
      some (-5, -5) := by decide

/-- C7 witness: on a concrete one-record unit with a non-negative bucket
the amended invariant is discharged at its hypotheses. -/
theorem token_usage_invariant_witness :
    ∃ s, parseCodexSessionFile testEnv 0 86399999 (s2l "f") [exTokenLine] = some s ∧
      s.tokens.total = s.tokens.input + s.tokens.output + s.tokens.reasoning +
        s.tokens.cacheRead + s.tokens.cacheWrite ∧
      TokensNonneg s.tokens ∧ 0 ≤ s.tokens.total := by
  rcases hp : parseCodexSessionFile testEnv 0 86399999 (s2l "f") [exTokenLine] with _ | s
  · exact absurd hp (by decide)
  · have h := token_usage_invariant.1 testEnv 0 86399999 (s2l "f") [exTokenLine] s hp
    exact ⟨s, rfl, h.1, h.2 (by decide)⟩
